import Mathlib

/-!
# Verification of the agent deployment subsystem

Shallow embedding of the deployment orchestration subsystem of the
`agent-hr` backend (`app/services/config_builder.py`,
`app/services/deployment_service.py`, `app/routers/deployments.py`,
`app/models/deployment.py`) together with proofs of the spec's claims
about it.

Conventions of the embedding:
* UUIDs are modelled as `Nat` identifiers; `datetime.utcnow()` is a
  logical clock (`DB.clock`) that ticks whenever a timestamp is taken.
* The SQLAlchemy session is a `DB` value threaded explicitly; commits
  are in-place list updates.  Python exceptions are modelled with an
  explicit error channel that still carries the mutated `DB` (committed
  writes survive a raise, as in the code).
* The Docker SDK is an oracle (`Docker`): a record of pure functions
  choosing, per call, either a result or the exception the SDK would
  raise.  Every adapter/network call an operation performs is recorded
  in a `Call` trace so that "no call was attempted" is provable.
* JSONB values are modelled by an inductive `Json`; a JSON object is an
  association list in insertion order, matching Python dict semantics.
* Python truthiness of optional strings/dicts (`if skill.description:`)
  is modelled explicitly (`strTruthy`, `configTruthy`).
-/

namespace AgentHR

/-- JSON values, for the `components.config` JSONB column and for the
tool definitions produced by the config builder.  Objects keep field
order (Python dicts preserve insertion order). -/
inductive Json where
  | null : Json
  | bool (b : Bool) : Json
  | num (n : Int) : Json
  | str (s : String) : Json
  | arr (elts : List Json) : Json
  | obj (fields : List (String × Json)) : Json

/-- `ComponentType` enum from `app/models/component.py`. -/
inductive ComponentType where
  | skill
  | mcp_tool
  | memory
  | agent
deriving DecidableEq

/-- A row of the `components` table (`app/models/component.py`), with the
fields the config builder reads.  `description`, `content` and `config`
are nullable columns. -/
structure Component where
  version_id : Nat
  type : ComponentType
  name : String
  description : Option String
  content : Option String
  config : Option (List (String × Json))

/-- Python truthiness of an optional string: `None` and `""` are falsy. -/
def strTruthy : Option String → Bool
  | none => false
  | some s => !s.isEmpty

/-- Python truthiness of an optional JSON object: `None` and `{}` are falsy. -/
def configTruthy : Option (List (String × Json)) → Bool
  | none => false
  | some fields => !fields.isEmpty

/-- Python dict lookup on a JSON object (first binding wins, as dict keys
are unique). -/
def jsonLookup (fields : List (String × Json)) (key : String) : Option Json :=
  (fields.find? (fun kv => kv.1 == key)).map (fun kv => kv.2)

/-- `"\n".join(sections)`: Python `str.join` semantics. -/
def joinStr (sep : String) : List String → String
  | [] => ""
  | [x] => x
  | x :: y :: xs => x ++ sep ++ joinStr sep (y :: xs)

/-- One element of the compiled memory context
(`ConfigBuilder._build_memory` produces `{key, content, description}`
dictionaries). -/
structure MemoryItem where
  key : String
  content : String
  description : Option String

/-- The compiled runtime manifest: the dictionary returned by
`ConfigBuilder.build_config`. -/
structure Manifest where
  system_prompt : String
  tools : List Json
  memory : List MemoryItem
  skills : List String
  model : String

/-- Python-level exceptions the config builder can raise
(`list.extend` of a non-iterable raises `TypeError`). -/
inductive PyErr where
  | typeError (msg : String)
deriving DecidableEq

namespace ConfigBuilder

/-- The fixed preamble sentence of every system prompt
(`config_builder.py` line 80). -/
def preamble : String := "You are an AI agent with specialized capabilities."

/-- The truncation marker appended to over-long memory bodies
(`config_builder.py` line 110). -/
def truncationMarker : String := "\n\n[Content truncated...]"

/-- Memory-body truncation (`config_builder.py` lines 108–110): bodies of
more than 4000 characters are cut to their first 4000 characters and the
marker is appended. -/
def truncateMemoryContent (content : String) : String :=
  if content.length > 4000 then content.take 4000 ++ truncationMarker
  else content

/-- The lines the skill loop (`config_builder.py` lines 87–94) appends to
`sections` for one skill component. -/
def skillSectionLines (skill : Component) : List String :=
  ["## " ++ skill.name]
  ++ (if strTruthy skill.description then
        ["*" ++ skill.description.getD "" ++ "*", ""]
      else [])
  ++ (if strTruthy skill.content then [skill.content.getD ""] else [])
  ++ [""]

/-- The title line of a memory section (`config_builder.py` lines
101–105): the memory item named `CLAUDE.md` (case-insensitively) is
titled `Project Context`, every other item is titled by its name. -/
def memorySectionTitle (mem : Component) : String :=
  if mem.name.toUpper = "CLAUDE.MD" then "## Project Context"
  else "## " ++ mem.name

/-- The lines the memory loop (`config_builder.py` lines 100–112) appends
to `sections` for one memory component. -/
def memorySectionLines (mem : Component) : List String :=
  [memorySectionTitle mem]
  ++ (if strTruthy mem.content then
        [truncateMemoryContent (mem.content.getD "")]
      else [])
  ++ [""]

/-- The `sections` list built by `ConfigBuilder._build_system_prompt`. -/
def systemPromptSections (skills memory : List Component) : List String :=
  [preamble, ""]
  ++ (if skills.isEmpty then []
      else ["# Your Skills", ""] ++ skills.flatMap skillSectionLines)
  ++ (if memory.isEmpty then []
      else ["# Background Knowledge", ""] ++ memory.flatMap memorySectionLines)

/-- `ConfigBuilder._build_system_prompt`: the joined instructions
document. -/
def build_system_prompt (skills memory : List Component) : String :=
  joinStr "\n" (systemPromptSections skills memory)

/-- The default (empty-object) input schema used when a tool component's
config has no `input_schema` key (`config_builder.py` lines 141–144). -/
def defaultInputSchema : Json :=
  .obj [("type", .str "object"), ("properties", .obj [])]

/-- The single tool definition synthesized for a tool component whose
config has no `tools` array (`config_builder.py` lines 138–145). -/
def basicToolDef (tool : Component) (config : List (String × Json)) : Json :=
  .obj [("name", .str tool.name),
        ("description",
          .str (if strTruthy tool.description then tool.description.getD ""
                else "MCP tool: " ++ tool.name)),
        ("input_schema", (jsonLookup config "input_schema").getD defaultInputSchema)]

/-- Python iteration over a JSON value, as `list.extend` consumes it:
arrays yield their elements, strings yield their characters as
one-character strings, objects yield their keys; other values are not
iterable. -/
def jsonIter : Json → Option (List Json)
  | .arr xs => some xs
  | .str s => some (s.data.map (fun c => Json.str (String.mk [c])))
  | .obj fields => some (fields.map (fun kv => Json.str kv.1))
  | _ => none

/-- The loop body of `ConfigBuilder._build_tools` (`config_builder.py`
lines 127–145), threading the `definitions` accumulator.  A component
with falsy config is skipped; a config with a `tools` key has that value
extended into `definitions` (`TypeError` if it is not iterable);
otherwise a basic definition is synthesized. -/
def build_tools_go (acc : List Json) : List Component → Except PyErr (List Json)
  | [] => .ok acc
  | tool :: rest =>
    if configTruthy tool.config then
      let config := tool.config.getD []
      match jsonLookup config "tools" with
      | some v =>
        match jsonIter v with
        | some elems => build_tools_go (acc ++ elems) rest
        | none => .error (.typeError "argument of type is not iterable")
      | none => build_tools_go (acc ++ [basicToolDef tool config]) rest
    else
      build_tools_go acc rest

/-- `ConfigBuilder._build_tools`. -/
def build_tools (mcp_tools : List Component) : Except PyErr (List Json) :=
  build_tools_go [] mcp_tools

/-- `ConfigBuilder._build_memory`. -/
def build_memory (memory : List Component) : List MemoryItem :=
  memory.map (fun mem =>
    { key := mem.name, content := mem.content.getD "", description := mem.description })

/-- `ConfigBuilder.build_config` applied to the components of a version
(the rows the method queries), in query order. -/
def build_config (components : List Component) : Except PyErr Manifest :=
  let skills := components.filter (fun c => decide (c.type = .skill))
  let mcp_tools := components.filter (fun c => decide (c.type = .mcp_tool))
  let memory := components.filter (fun c => decide (c.type = .memory))
  let system_prompt := build_system_prompt skills memory
  match build_tools mcp_tools with
  | .error e => .error e
  | .ok tool_definitions =>
    .ok { system_prompt := system_prompt
          tools := tool_definitions
          memory := build_memory memory
          skills := skills.map (fun s => s.name)
          model := "claude-sonnet-4-5-20250929" }

end ConfigBuilder

/-! ## Deployment data model (`app/models/deployment.py`) -/

/-- `DeploymentStatus` enum. -/
inductive DeploymentStatus where
  | pending
  | building
  | starting
  | running
  | stopping
  | stopped
  | failed
deriving DecidableEq

/-- The string value of a status (the enum values stored in the `status`
column and interpolated into error messages). -/
def DeploymentStatus.str : DeploymentStatus → String
  | .pending => "pending"
  | .building => "building"
  | .starting => "starting"
  | .running => "running"
  | .stopping => "stopping"
  | .stopped => "stopped"
  | .failed => "failed"

/-- A row of the `agent_deployments` table.  Timestamps are logical clock
values. -/
structure Deployment where
  id : Nat
  agent_id : Nat
  version_id : Nat
  status : DeploymentStatus
  container_id : Option Nat
  image_id : Option Nat
  port : Option Nat
  error_message : Option String
  created_by : Option Nat
  created_at : Nat
  started_at : Option Nat
  stopped_at : Option Nat
deriving DecidableEq

/-- The persistent state the orchestrator reads and writes: the agents
and components tables (read-only here), the deployments table, a logical
clock standing for `datetime.utcnow()`, and the next fresh deployment id
(primary keys are generated UUIDs, so fresh and never reused). -/
structure DB where
  agents : List Nat
  components : List Component
  deployments : List Deployment
  clock : Nat
  next_id : Nat

/-- The deployment ids present in a database. -/
def DB.depIds (db : DB) : List Nat := db.deployments.map (fun d => d.id)

/-- Well-formedness delivered by the schema: deployment ids are distinct
(primary keys) and below the fresh-id counter (never reused). -/
def DB.WF (db : DB) : Prop :=
  db.depIds.Nodup ∧ ∀ d ∈ db.deployments, d.id < db.next_id

instance (db : DB) : Decidable db.WF := by
  unfold DB.WF; infer_instance

/-- `db.query(AgentDeployment).filter(AgentDeployment.id == i).first()`. -/
def DB.findDeployment (db : DB) (i : Nat) : Option Deployment :=
  db.deployments.find? (fun d => decide (d.id = i))

/-- Commit a field update to every row with the given id (there is at
most one under `DB.WF`). -/
def DB.updateDeployment (db : DB) (i : Nat) (f : Deployment → Deployment) : DB :=
  { db with deployments := db.deployments.map (fun d => if d.id = i then f d else d) }

/-! ## Container runtime adapter (`app/services/docker_service.py`) -/

/-- The two shapes of Docker SDK failure the orchestrator distinguishes:
`docker.errors.NotFound` (caught during teardown) and every other
`DockerException`/`APIError`, which carries a message. -/
inductive DockerErr where
  | notFound
  | apiError (msg : String)
deriving DecidableEq

/-- Container-probe data returned by `DockerService.get_container_status`. -/
structure ContainerProbe where
  status : String
  running : Bool
  health : String
  started_at : Option String
  finished_at : Option String
deriving DecidableEq

/-- The `container` entry of a status dictionary: either probe data or
the `{"status": "not_found"}` marker substituted when the probe raises
`NotFound`. -/
inductive ContainerInfo where
  | probe (p : ContainerProbe)
  | not_found
deriving DecidableEq

/-- Oracle for the external container engine: for each call, either the
result or the exception the Docker SDK raises.  `build_image` and
`create_container` failures are represented by the exception's message
(`str(e)`), which is all `deploy()` uses of them. -/
structure Docker where
  build_image : Nat → Nat → Manifest → Except String Nat
  create_container : Nat → Nat → Except String (Nat × Nat)
  stop_container : Nat → Except DockerErr Unit
  remove_container : Nat → Except DockerErr Unit
  get_container_status : Nat → Except DockerErr ContainerProbe

/-- Exceptions crossing the service boundary. -/
inductive Err where
  | valueError (msg : String)
  | dockerError (msg : String)
  | typeError (msg : String)
deriving DecidableEq

/-- `str(e)`: the message of an exception, as persisted into
`error_message` and interpolated into reports. -/
def Err.str : Err → String
  | .valueError m => m
  | .dockerError m => m
  | .typeError m => m

/-- One call to the container engine or to a running container's network
endpoint.  Operations record every such call they attempt. -/
inductive Call where
  | buildImage (agent_id version_id : Nat)
  | createContainer (image_id dep_id : Nat)
  | stopContainer (container_id : Nat)
  | removeContainer (container_id : Nat)
  | inspectContainer (container_id : Nat)
  | httpChat (port : Nat)
deriving DecidableEq

/-- Result of a service call: the database as left behind (committed
writes survive a raise), the adapter/network calls attempted, and either
the returned value or the exception propagated to the caller. -/
structure Outcome (α : Type) where
  db : DB
  calls : List Call
  result : Except Err α

namespace DeploymentService

/-- The adapter calls one `stop()` attempt makes for a deployment,
determined by its container handle and the oracle: `stop_container`
always, then `remove_container` unless `stop_container` raised. -/
def stopAttemptCalls (dk : Docker) (d : Deployment) : List Call :=
  match d.container_id with
  | none => []
  | some cid =>
    match dk.stop_container cid with
    | .error _ => [.stopContainer cid]
    | .ok _ => [.stopContainer cid, .removeContainer cid]

/-- Whether the teardown inside `stop()` raises a non-`NotFound` docker
exception for this deployment (a `NotFound` from either call is caught
and treated as success). -/
def stopCallFails (dk : Docker) (d : Deployment) : Bool :=
  match d.container_id with
  | none => false
  | some cid =>
    match dk.stop_container cid with
    | .error .notFound => false
    | .error (.apiError _) => true
    | .ok _ =>
      match dk.remove_container cid with
      | .error .notFound => false
      | .error (.apiError _) => true
      | .ok _ => false

/-- The message of the docker exception `stop()` propagates when
`stopCallFails` holds. -/
def stopFailMsg (dk : Docker) (d : Deployment) : String :=
  match d.container_id with
  | none => ""
  | some cid =>
    match dk.stop_container cid with
    | .error .notFound => ""
    | .error (.apiError m) => m
    | .ok _ =>
      match dk.remove_container cid with
      | .error (.apiError m) => m
      | _ => ""

/-- The final commit of a successful `stop()`: status `STOPPED`, stop
timestamp, and the refreshed record returned
(`deployment_service.py` lines 137–142). -/
def stopFinish (db : DB) (d : Deployment) (calls : List Call) : Outcome Deployment :=
  let d' := { d with status := .stopped, stopped_at := some db.clock }
  { db := { db.updateDeployment d.id (fun x =>
              { x with status := .stopped, stopped_at := some db.clock })
            with clock := db.clock + 1 }
    calls := calls
    result := .ok d' }

/-- `DeploymentService.stop` (`deployment_service.py` lines 104–142):
resolve the deployment, require status `RUNNING`, transition to
`STOPPING` (committed), tear the container down treating `NotFound` as
success, then commit `STOPPED` with a stop timestamp.  A non-`NotFound`
docker exception propagates with the `STOPPING` write already
committed. -/
def stop (dk : Docker) (db : DB) (dep_id : Nat) : Outcome Deployment :=
  match db.findDeployment dep_id with
  | none =>
    { db := db, calls := []
      result := .error (.valueError ("Deployment " ++ toString dep_id ++ " not found")) }
  | some d =>
    if d.status ≠ DeploymentStatus.running then
      { db := db, calls := []
        result := .error (.valueError
          ("Deployment is not running (status: " ++ d.status.str ++ ")")) }
    else
      let db1 := db.updateDeployment dep_id (fun x => { x with status := .stopping })
      match d.container_id with
      | none => stopFinish db1 { d with status := .stopping } []
      | some cid =>
        match dk.stop_container cid with
        | .error .notFound =>
          stopFinish db1 { d with status := .stopping } [.stopContainer cid]
        | .error (.apiError m) =>
          { db := db1, calls := [.stopContainer cid], result := .error (.dockerError m) }
        | .ok _ =>
          match dk.remove_container cid with
          | .error .notFound =>
            stopFinish db1 { d with status := .stopping }
              [.stopContainer cid, .removeContainer cid]
          | .error (.apiError m) =>
            { db := db1, calls := [.stopContainer cid, .removeContainer cid]
              result := .error (.dockerError m) }
          | .ok _ =>
            stopFinish db1 { d with status := .stopping }
              [.stopContainer cid, .removeContainer cid]

/-- The body of the loop in `_stop_existing_deployments`
(`deployment_service.py` lines 248–255): call `stop`, and on any
exception force-commit `STOPPED` with a stop timestamp. -/
def stopExistingStep (dk : Docker) (acc : DB × List Call) (d : Deployment) :
    DB × List Call :=
  let o := stop dk acc.1 d.id
  match o.result with
  | .ok _ => (o.db, acc.2 ++ o.calls)
  | .error _ =>
    ({ o.db.updateDeployment d.id (fun x =>
         { x with status := .stopped, stopped_at := some o.db.clock })
       with clock := o.db.clock + 1 },
     acc.2 ++ o.calls)

/-- `DeploymentService._stop_existing_deployments`
(`deployment_service.py` lines 233–255): snapshot the agent's `RUNNING`
deployments, then stop each, swallowing every exception and
force-marking the row `STOPPED` when `stop` raises. -/
def stopExisting (dk : Docker) (db : DB) (agent_id : Nat) : DB × List Call :=
  let running := db.deployments.filter
    (fun d => decide (d.agent_id = agent_id ∧ d.status = DeploymentStatus.running))
  running.foldl (stopExistingStep dk) (db, [])

/-- The failure commit of `deploy()` (`deployment_service.py` lines
97–102): mark the new deployment `FAILED`, persist `str(e)` as the error
message, and re-raise the same exception. -/
def deployFail (db : DB) (dep_id : Nat) (calls : List Call) (e : Err) :
    Outcome Deployment :=
  { db := db.updateDeployment dep_id (fun x =>
      { x with status := .failed, error_message := some e.str })
    calls := calls
    result := .error e }

/-- `DeploymentService.deploy` (`deployment_service.py` lines 27–102):
verify the agent, stop existing running deployments, persist a `PENDING`
record, then build (config + image) and start the container, committing
each transition; any exception inside the try block flips the record to
`FAILED`, persists the message, and re-raises. -/
def deploy (dk : Docker) (db : DB) (agent_id version_id : Nat)
    (user_id : Option Nat) : Outcome Deployment :=
  if ¬ agent_id ∈ db.agents then
    { db := db, calls := []
      result := .error (.valueError ("Agent " ++ toString agent_id ++ " not found")) }
  else
    let se := stopExisting dk db agent_id
    let db1 := se.1
    let dep_id := db1.next_id
    let newDep : Deployment :=
      { id := dep_id, agent_id := agent_id, version_id := version_id
        status := .pending, container_id := none, image_id := none, port := none
        error_message := none, created_by := user_id, created_at := db1.clock
        started_at := none, stopped_at := none }
    let db2 : DB :=
      { db1 with deployments := db1.deployments ++ [newDep]
                 clock := db1.clock + 1, next_id := db1.next_id + 1 }
    let db3 := db2.updateDeployment dep_id (fun x => { x with status := .building })
    let comps := db3.components.filter (fun c => decide (c.version_id = version_id))
    match ConfigBuilder.build_config comps with
    | .error (.typeError m) => deployFail db3 dep_id se.2 (.typeError m)
    | .ok config =>
      match dk.build_image agent_id version_id config with
      | .error m =>
        deployFail db3 dep_id (se.2 ++ [.buildImage agent_id version_id]) (.dockerError m)
      | .ok image_id =>
        let db4 := db3.updateDeployment dep_id (fun x => { x with image_id := some image_id })
        let db5 := db4.updateDeployment dep_id (fun x => { x with status := .starting })
        match dk.create_container image_id dep_id with
        | .error m =>
          deployFail db5 dep_id
            (se.2 ++ [.buildImage agent_id version_id, .createContainer image_id dep_id])
            (.dockerError m)
        | .ok (container_id, port) =>
          let fin := fun x =>
            { x with container_id := some container_id, port := some port
                     status := DeploymentStatus.running, started_at := some db5.clock }
          { db := { db5.updateDeployment dep_id fin with clock := db5.clock + 1 }
            calls := se.2 ++ [.buildImage agent_id version_id,
                              .createContainer image_id dep_id]
            result := .ok (fin { newDep with status := .starting, image_id := some image_id }) }

/-- The status dictionary returned by `DeploymentService.get_status`. -/
structure StatusInfo where
  id : Nat
  agent_id : Nat
  version_id : Nat
  status : DeploymentStatus
  port : Option Nat
  created_at : Nat
  started_at : Option Nat
  stopped_at : Option Nat
  error_message : Option String
  container : Option ContainerInfo
deriving DecidableEq

/-- `DeploymentService.get_status` (`deployment_service.py` lines
144–184): read-only merge of the persisted record with a live probe,
attempted only when a container handle exists and status is `RUNNING`;
`NotFound` from the probe is replaced by a `not_found` marker, any other
probe failure propagates.  No write ever happens. -/
def get_status (dk : Docker) (db : DB) (dep_id : Nat) : Outcome StatusInfo :=
  { db := db
    calls :=
      match db.findDeployment dep_id with
      | none => []
      | some d =>
        match d.container_id with
        | some cid =>
          if d.status = DeploymentStatus.running then [.inspectContainer cid] else []
        | none => []
    result :=
      match db.findDeployment dep_id with
      | none => .error (.valueError ("Deployment " ++ toString dep_id ++ " not found"))
      | some d =>
        let base : StatusInfo :=
          { id := d.id, agent_id := d.agent_id, version_id := d.version_id
            status := d.status, port := d.port, created_at := d.created_at
            started_at := d.started_at, stopped_at := d.stopped_at
            error_message := d.error_message, container := none }
        match d.container_id with
        | some cid =>
          if d.status = DeploymentStatus.running then
            match dk.get_container_status cid with
            | .ok p => .ok { base with container := some (.probe p) }
            | .error .notFound => .ok { base with container := some .not_found }
            | .error (.apiError m) => .error (.dockerError m)
          else .ok base
        | none => .ok base }

end DeploymentService

/-! ## Router endpoints (`app/routers/deployments.py`) -/

namespace Routers

/-- The summary returned by `POST /api/deployments/stop-all`
(`deployments.py` lines 247–252). -/
structure StopAllReport where
  message : String
  stopped_count : Nat
  failed_count : Nat
  errors : Option (List (Nat × Nat × String))
deriving DecidableEq

/-- The loop body of `stop_all_deployments` (`deployments.py` lines
235–245): stop one deployment, counting a success or swallowing the
exception into the failure count and detail list. -/
def stopAllStep (dk : Docker) (acc : DB × List Call × Nat × Nat × List (Nat × Nat × String))
    (d : Deployment) : DB × List Call × Nat × Nat × List (Nat × Nat × String) :=
  let o := DeploymentService.stop dk acc.1 d.id
  match o.result with
  | .ok _ => (o.db, acc.2.1 ++ o.calls, acc.2.2.1 + 1, acc.2.2.2.1, acc.2.2.2.2)
  | .error e =>
    (o.db, acc.2.1 ++ o.calls, acc.2.2.1, acc.2.2.2.1 + 1,
     acc.2.2.2.2 ++ [(d.id, d.agent_id, e.str)])

/-- `stop_all_deployments` (`deployments.py` lines 210–252): snapshot all
`RUNNING` deployments, stop each independently — a failure on one is
recorded and never prevents attempting the rest — and report the counts
and per-failure details. -/
def stop_all_deployments (dk : Docker) (db : DB) : DB × List Call × StopAllReport :=
  let running := db.deployments.filter
    (fun d => decide (d.status = DeploymentStatus.running))
  let r := running.foldl (stopAllStep dk) (db, [], 0, 0, [])
  (r.1, r.2.1,
   { message := "Stopped " ++ toString r.2.2.1 ++ " deployment(s)"
     stopped_count := r.2.2.1
     failed_count := r.2.2.2.1
     errors := if r.2.2.2.2.isEmpty then none else some r.2.2.2.2 })

/-- An HTTP response from the container's `/chat` endpoint: status code,
raw body text, and the `response` / `conversation_id` fields of its JSON
body when present. -/
structure HttpReply where
  statusCode : Nat
  text : String
  response : Option String
  conversation_id : Option String
deriving DecidableEq

/-- Oracle for the network: a POST of a chat message to a container port
either raises a client connection error (with message) or yields a
reply. -/
structure ChatOracle where
  post_chat : Nat → String → String → Except String HttpReply

/-- An HTTP error response of the gateway (`fastapi.HTTPException`). -/
structure HTTPError where
  status_code : Nat
  detail : String
deriving DecidableEq

/-- The gateway's chat response body. -/
structure ChatResponse where
  response : String
  conversation_id : String
deriving DecidableEq

/-- `chat_with_deployment` (`deployments.py` lines 255–323): resolve the
deployment; reject with 404/400/500 — before any network call — when it
is missing, not `RUNNING`, or has no (truthy) port; otherwise forward
the message to the container, passing non-2xx error bodies through and
turning connection failures into a 503.  `fresh` stands for the
`uuid.uuid4()` fallback conversation id. -/
def chat_with_deployment (co : ChatOracle) (db : DB) (dep_id : Nat)
    (message : String) (conversation_id : Option String) (fresh : String) :
    List Call × Except HTTPError ChatResponse :=
  match db.findDeployment dep_id with
  | none => ([], .error ⟨404, "Deployment not found"⟩)
  | some d =>
    if d.status ≠ DeploymentStatus.running then
      ([], .error ⟨400, "Deployment is not running (status: " ++ d.status.str ++ ")"⟩)
    else if d.port = none ∨ d.port = some 0 then
      ([], .error ⟨500, "Deployment has no assigned port"⟩)
    else
      let port := d.port.getD 0
      let conv :=
        match conversation_id with
        | none => fresh
        | some c => if c.isEmpty then fresh else c
      match co.post_chat port message conv with
      | .error e =>
        ([.httpChat port], .error ⟨503, "Failed to connect to agent container: " ++ e⟩)
      | .ok r =>
        if r.statusCode ≠ 200 then
          ([.httpChat port], .error ⟨r.statusCode, "Agent error: " ++ r.text⟩)
        else
          ([.httpChat port], .ok ⟨r.response.getD "", r.conversation_id.getD conv⟩)

end Routers

/-! ## The orchestrator's operations as a transition system -/

/-- One orchestrator operation on the deployments table, with arbitrary
oracle behaviour and arguments: the operations named by the spec
(`deploy`, `stop`, `_stop_existing_deployments`, `get_status`,
`stop_all_deployments`). -/
inductive OrchStep : DB → DB → Prop where
  | deploy (dk : Docker) (db : DB) (a v : Nat) (u : Option Nat) :
      OrchStep db (DeploymentService.deploy dk db a v u).db
  | stop (dk : Docker) (db : DB) (i : Nat) :
      OrchStep db (DeploymentService.stop dk db i).db
  | stopExisting (dk : Docker) (db : DB) (a : Nat) :
      OrchStep db (DeploymentService.stopExisting dk db a).1
  | getStatus (dk : Docker) (db : DB) (i : Nat) :
      OrchStep db (DeploymentService.get_status dk db i).db
  | stopAll (dk : Docker) (db : DB) :
      OrchStep db (Routers.stop_all_deployments dk db).1

/-- Reachability by any sequence of orchestrator operations. -/
def OrchReach : DB → DB → Prop := Relation.ReflTransGen OrchStep

/-- A status is terminal when it is `STOPPED` or `FAILED`. -/
def DeploymentStatus.terminal (s : DeploymentStatus) : Prop :=
  s = DeploymentStatus.stopped ∨ s = DeploymentStatus.failed

/-! ## Basic facts about the database embedding -/

theorem DB.mem_update {db : DB} {i : Nat} {f : Deployment → Deployment} {d' : Deployment} :
    d' ∈ (db.updateDeployment i f).deployments ↔
      ∃ d, d ∈ db.deployments ∧ d' = if d.id = i then f d else d := by
  simp only [DB.updateDeployment, List.mem_map]
  exact ⟨fun ⟨d, hd, he⟩ => ⟨d, hd, he.symm⟩, fun ⟨d, hd, he⟩ => ⟨d, hd, he.symm⟩⟩

theorem DB.depIds_update {db : DB} {i : Nat} {f : Deployment → Deployment}
    (hf : ∀ d, (f d).id = d.id) :
    (db.updateDeployment i f).depIds = db.depIds := by
  simp only [DB.depIds, DB.updateDeployment, List.map_map]
  refine List.map_congr_left (fun d _ => ?_)
  by_cases h : d.id = i <;> simp [h, hf]

theorem DB.findDeployment_eq_some {db : DB} {i : Nat} {d : Deployment}
    (h : db.findDeployment i = some d) : d ∈ db.deployments ∧ d.id = i := by
  refine ⟨List.mem_of_find?_eq_some h, ?_⟩
  have := List.find?_some h
  simpa using this

/-- Under `DB.WF`, two rows with the same id are the same row. -/
theorem DB.unique_of_WF {db : DB} (hwf : db.WF) {d d' : Deployment}
    (hd : d ∈ db.deployments) (hd' : d' ∈ db.deployments) (hid : d'.id = d.id) :
    d' = d :=
  List.inj_on_of_nodup_map hwf.1 hd' hd hid

/-- Under `DB.WF`, looking up the id of a present row finds that row. -/
theorem DB.findDeployment_of_mem {db : DB} (hwf : db.WF) {d : Deployment}
    (hd : d ∈ db.deployments) : db.findDeployment d.id = some d := by
  unfold DB.findDeployment
  cases hfind : db.deployments.find? (fun x => decide (x.id = d.id)) with
  | none =>
    rw [List.find?_eq_none] at hfind
    exact absurd (by simp : (fun x : Deployment => decide (x.id = d.id)) d = true)
      (by simpa using hfind d hd)
  | some x =>
    have hx : x ∈ db.deployments := List.mem_of_find?_eq_some hfind
    have hxi : x.id = d.id := by simpa using List.find?_some hfind
    rw [DB.unique_of_WF hwf hd hx hxi]

/-- Case analysis on membership after an id-targeted update whose update
function preserves ids. -/
theorem DB.mem_update_cases {db : DB} {i : Nat} {f : Deployment → Deployment}
    {d' : Deployment} (hd' : d' ∈ (db.updateDeployment i f).deployments)
    (hf : ∀ d, (f d).id = d.id) :
    (d'.id ≠ i → d' ∈ db.deployments)
    ∧ (d'.id = i → ∃ d, d ∈ db.deployments ∧ d.id = i ∧ d' = f d) := by
  rw [DB.mem_update] at hd'
  obtain ⟨d, hd, he⟩ := hd'
  by_cases h : d.id = i
  · rw [if_pos h] at he
    have hid : d'.id = i := by rw [he, hf, h]
    exact ⟨fun hne => absurd hid hne, fun _ => ⟨d, hd, h, he⟩⟩
  · rw [if_neg h] at he
    subst he
    exact ⟨fun _ => hd, fun hi => absurd hi h⟩

namespace DeploymentService

theorem stop_no_deployment {dk : Docker} {db : DB} {i : Nat}
    (h : db.findDeployment i = none) :
    stop dk db i =
      { db := db, calls := []
        result := .error (.valueError ("Deployment " ++ toString i ++ " not found")) } := by
  unfold stop
  rw [h]

theorem stop_not_running {dk : Docker} {db : DB} {i : Nat} {d : Deployment}
    (h : db.findDeployment i = some d) (h2 : d.status ≠ DeploymentStatus.running) :
    stop dk db i =
      { db := db, calls := []
        result := .error (.valueError
          ("Deployment is not running (status: " ++ d.status.str ++ ")")) } := by
  unfold stop
  simp only [h]
  rw [if_pos h2]

/-- `stopFinish` leaves the id multiset unchanged. -/
theorem stopFinish_depIds {db : DB} {d : Deployment} {calls : List Call} :
    (stopFinish db d calls).db.depIds = db.depIds := by
  have h : (stopFinish db d calls).db.depIds =
      (db.updateDeployment d.id (fun x =>
        { x with status := DeploymentStatus.stopped,
                 stopped_at := some db.clock })).depIds := rfl
  rw [h]
  exact DB.depIds_update (fun _ => rfl)

/-- Membership after `stopFinish`, phrased over the target id. -/
theorem stopFinish_mem {db : DB} {d : Deployment} {calls : List Call} {d' : Deployment}
    {j : Nat} (hj : d.id = j)
    (hd' : d' ∈ (stopFinish db d calls).db.deployments) :
    d' ∈ (db.updateDeployment j (fun x =>
      { x with status := DeploymentStatus.stopped,
               stopped_at := some db.clock })).deployments := by
  cases hj
  exact hd'

/-- Full effect of `stop` on a `RUNNING` deployment: the calls attempted,
the preserved parts of the database, the status written for the target
id (`STOPPED`, or `STOPPING` when the teardown raises), and the
result/exception returned. -/
theorem stop_running_effect (dk : Docker) {db : DB} {i : Nat} {d : Deployment}
    (h : db.findDeployment i = some d) (hrun : d.status = DeploymentStatus.running) :
    (stop dk db i).calls = stopAttemptCalls dk d
    ∧ (stop dk db i).db.next_id = db.next_id
    ∧ (stop dk db i).db.agents = db.agents
    ∧ (stop dk db i).db.components = db.components
    ∧ (stop dk db i).db.depIds = db.depIds
    ∧ (∀ d' ∈ (stop dk db i).db.deployments,
        (d'.id ≠ i → d' ∈ db.deployments)
        ∧ (d'.id = i →
            d'.status = (if stopCallFails dk d then DeploymentStatus.stopping
                         else DeploymentStatus.stopped)
            ∧ (stopCallFails dk d = false → d'.stopped_at = some db.clock)))
    ∧ (stopCallFails dk d = false →
        (stop dk db i).result =
          .ok { d with status := .stopped, stopped_at := some db.clock })
    ∧ (stopCallFails dk d = true →
        (stop dk db i).result = .error (.dockerError (stopFailMsg dk d))) := by
  have hdi : d.id = i := (DB.findDeployment_eq_some h).2
  have memSucc : ∀ (dd : Deployment), dd.id = i → ∀ (calls : List Call) (d' : Deployment),
      d' ∈ (stopFinish
          (db.updateDeployment i fun x => { x with status := DeploymentStatus.stopping })
          dd calls).db.deployments →
      (d'.id ≠ i → d' ∈ db.deployments)
      ∧ (d'.id = i → d'.status = DeploymentStatus.stopped
          ∧ d'.stopped_at = some db.clock) := by
    intro dd hddi calls d' hd'
    have hd2 := stopFinish_mem (j := i) hddi hd'
    have h1 := DB.mem_update_cases hd2 (fun _ => rfl)
    refine ⟨fun hne => (DB.mem_update_cases (h1.1 hne) (fun _ => rfl)).1 hne, fun hi => ?_⟩
    obtain ⟨x, _, _, hx⟩ := h1.2 hi
    rw [hx]
    exact ⟨rfl, rfl⟩
  have memFail : ∀ d' ∈ (db.updateDeployment i fun x =>
        { x with status := DeploymentStatus.stopping }).deployments,
      (d'.id ≠ i → d' ∈ db.deployments) ∧ (d'.id = i → d'.status = DeploymentStatus.stopping) := by
    intro d' hd'
    have h1 := DB.mem_update_cases hd' (fun _ => rfl)
    refine ⟨h1.1, fun hi => ?_⟩
    obtain ⟨x, _, _, hx⟩ := h1.2 hi
    rw [hx]
  have idsSucc : ∀ (dd : Deployment) (calls : List Call),
      (stopFinish
        (db.updateDeployment i fun x => { x with status := DeploymentStatus.stopping })
        dd calls).db.depIds = db.depIds := by
    intro dd calls
    rw [stopFinish_depIds]
    exact DB.depIds_update (fun _ => rfl)
  unfold stop
  simp only [h]
  rw [if_neg (not_not_intro hrun)]
  cases hc : d.container_id with
  | none =>
    refine ⟨by simp [stopAttemptCalls, hc, stopFinish], rfl, rfl, rfl, idsSucc _ [], ?_, fun _ => rfl, ?_⟩
    · intro d' hd'
      have h2 := memSucc _ hdi [] d' hd'
      refine ⟨h2.1, fun hi => ?_⟩
      have h3 := h2.2 hi
      rw [show stopCallFails dk d = false by simp [stopCallFails, hc]]
      exact ⟨by simpa using h3.1, fun _ => h3.2⟩
    · intro hfail
      simp [stopCallFails, hc] at hfail
  | some cid =>
    dsimp only
    cases hsc : dk.stop_container cid with
    | error e =>
      cases e with
      | notFound =>
        refine ⟨by simp [stopAttemptCalls, hc, hsc, stopFinish], rfl, rfl, rfl,
          idsSucc _ [.stopContainer cid], ?_, fun _ => rfl, ?_⟩
        · intro d' hd'
          have h2 := memSucc _ hdi [.stopContainer cid] d' hd'
          refine ⟨h2.1, fun hi => ?_⟩
          have h3 := h2.2 hi
          rw [show stopCallFails dk d = false by simp [stopCallFails, hc, hsc]]
          exact ⟨by simpa using h3.1, fun _ => h3.2⟩
        · intro hfail
          simp [stopCallFails, hc, hsc] at hfail
      | apiError m =>
        refine ⟨by simp [stopAttemptCalls, hc, hsc, stopFinish], rfl, rfl, rfl,
          DB.depIds_update (fun _ => rfl), ?_, ?_, fun _ => by
            simp [stopFailMsg, hc, hsc]⟩
        · intro d' hd'
          have h2 := memFail d' hd'
          refine ⟨h2.1, fun hi => ?_⟩
          rw [show stopCallFails dk d = true by simp [stopCallFails, hc, hsc]]
          exact ⟨by simpa using h2.2 hi, fun hfalse => by cases hfalse⟩
        · intro hok
          simp [stopCallFails, hc, hsc] at hok
    | ok u =>
      cases hrc : dk.remove_container cid with
      | error e =>
        cases e with
        | notFound =>
          refine ⟨by simp [stopAttemptCalls, hc, hsc, stopFinish], rfl, rfl, rfl,
            idsSucc _ [.stopContainer cid, .removeContainer cid], ?_, fun _ => rfl, ?_⟩
          · intro d' hd'
            have h2 := memSucc _ hdi [.stopContainer cid, .removeContainer cid] d' hd'
            refine ⟨h2.1, fun hi => ?_⟩
            have h3 := h2.2 hi
            rw [show stopCallFails dk d = false by simp [stopCallFails, hc, hsc, hrc]]
            exact ⟨by simpa using h3.1, fun _ => h3.2⟩
          · intro hfail
            simp [stopCallFails, hc, hsc, hrc] at hfail
        | apiError m =>
          refine ⟨by simp [stopAttemptCalls, hc, hsc, stopFinish], rfl, rfl, rfl,
            DB.depIds_update (fun _ => rfl), ?_, ?_, fun _ => by
              simp [stopFailMsg, hc, hsc, hrc]⟩
          · intro d' hd'
            have h2 := memFail d' hd'
            refine ⟨h2.1, fun hi => ?_⟩
            rw [show stopCallFails dk d = true by simp [stopCallFails, hc, hsc, hrc]]
            exact ⟨by simpa using h2.2 hi, fun hfalse => by cases hfalse⟩
          · intro hok
            simp [stopCallFails, hc, hsc, hrc] at hok
      | ok v =>
        refine ⟨by simp [stopAttemptCalls, hc, hsc, stopFinish], rfl, rfl, rfl,
          idsSucc _ [.stopContainer cid, .removeContainer cid], ?_, fun _ => rfl, ?_⟩
        · intro d' hd'
          have h2 := memSucc _ hdi [.stopContainer cid, .removeContainer cid] d' hd'
          refine ⟨h2.1, fun hi => ?_⟩
          have h3 := h2.2 hi
          rw [show stopCallFails dk d = false by simp [stopCallFails, hc, hsc, hrc]]
          exact ⟨by simpa using h3.1, fun _ => h3.2⟩
        · intro hfail
          simp [stopCallFails, hc, hsc, hrc] at hfail

end DeploymentService

/-- A fresh row id cannot collide, and ids stay distinct, whenever the id
multiset and fresh counter are preserved. -/
theorem DB.WF_of_eq_depIds {db db' : DB} (h1 : db'.depIds = db.depIds)
    (h2 : db'.next_id = db.next_id) (hwf : db.WF) : db'.WF := by
  refine ⟨h1 ▸ hwf.1, fun d' hd' => ?_⟩
  have : d'.id ∈ db'.depIds := List.mem_map_of_mem _ hd'
  rw [h1] at this
  obtain ⟨y, hy, hyid⟩ := List.mem_map.mp this
  rw [h2, ← hyid]
  exact hwf.2 y hy

theorem DB.exists_of_id_mem {db : DB} {j : Nat} (hj : j ∈ db.depIds) :
    ∃ d, d ∈ db.deployments ∧ d.id = j := by
  simpa [DB.depIds, List.mem_map] using hj

/-- `findDeployment` from a uniqueness assumption on the looked-up id. -/
theorem DB.findDeployment_of_unique {db : DB} {d : Deployment}
    (hd : d ∈ db.deployments)
    (huniq : ∀ d' ∈ db.deployments, d'.id = d.id → d' = d) :
    db.findDeployment d.id = some d := by
  unfold DB.findDeployment
  cases hfind : db.deployments.find? (fun x => decide (x.id = d.id)) with
  | none =>
    rw [List.find?_eq_none] at hfind
    exact absurd (by simp : (fun x : Deployment => decide (x.id = d.id)) d = true)
      (by simpa using hfind d hd)
  | some x =>
    have hx : x ∈ db.deployments := List.mem_of_find?_eq_some hfind
    have hxi : x.id = d.id := by simpa using List.find?_some hfind
    rw [huniq x hx hxi]

namespace DeploymentService

/-- Effect of the `_stop_existing_deployments` loop over a snapshot `L`
of distinct, present, `RUNNING` rows: everything but the rows in `L` is
untouched, each row in `L` ends `STOPPED` with a stop timestamp (whether
its `stop` succeeded or was force-marked), and the adapter calls are the
per-row teardown attempts in order. -/
theorem stopExisting_go (dk : Docker) :
    ∀ (L : List Deployment) (db : DB) (calls0 : List Call),
    (L.map (fun d => d.id)).Nodup →
    (∀ x ∈ L, x ∈ db.deployments) →
    (∀ x ∈ L, ∀ d' ∈ db.deployments, d'.id = x.id → d' = x) →
    (∀ x ∈ L, x.status = DeploymentStatus.running) →
    (L.foldl (stopExistingStep dk) (db, calls0)).1.next_id = db.next_id
    ∧ (L.foldl (stopExistingStep dk) (db, calls0)).1.agents = db.agents
    ∧ (L.foldl (stopExistingStep dk) (db, calls0)).1.components = db.components
    ∧ (L.foldl (stopExistingStep dk) (db, calls0)).1.depIds = db.depIds
    ∧ (L.foldl (stopExistingStep dk) (db, calls0)).2
        = calls0 ++ L.flatMap (stopAttemptCalls dk)
    ∧ (∀ d' ∈ (L.foldl (stopExistingStep dk) (db, calls0)).1.deployments,
        (d'.id ∈ L.map (fun d => d.id) →
          d'.status = DeploymentStatus.stopped ∧ d'.stopped_at.isSome)
        ∧ (d'.id ∉ L.map (fun d => d.id) → d' ∈ db.deployments)) := by
  intro L
  induction L with
  | nil =>
    intro db calls0 _ _ _ _
    exact ⟨rfl, rfl, rfl, rfl, by simp, fun d' hd' =>
      ⟨fun hin => absurd hin (by simp), fun _ => hd'⟩⟩
  | cons x rest ih =>
    intro db calls0 hnodup hmem huniq hrun
    have hxdb : x ∈ db.deployments := hmem x (by simp)
    have hfind : db.findDeployment x.id = some x :=
      DB.findDeployment_of_unique hxdb (huniq x (by simp))
    obtain ⟨hc1, hc2, hc3, hc4, hc5, hc6, hc7, hc8⟩ :=
      stop_running_effect dk hfind (hrun x (by simp))
    -- characterize the single step
    have hstep :
        (stopExistingStep dk (db, calls0) x).2 = calls0 ++ stopAttemptCalls dk x
        ∧ (stopExistingStep dk (db, calls0) x).1.next_id = db.next_id
        ∧ (stopExistingStep dk (db, calls0) x).1.agents = db.agents
        ∧ (stopExistingStep dk (db, calls0) x).1.components = db.components
        ∧ (stopExistingStep dk (db, calls0) x).1.depIds = db.depIds
        ∧ (∀ d' ∈ (stopExistingStep dk (db, calls0) x).1.deployments,
            (d'.id = x.id →
              d'.status = DeploymentStatus.stopped ∧ d'.stopped_at.isSome)
            ∧ (d'.id ≠ x.id → d' ∈ db.deployments)) := by
      cases hfails : stopCallFails dk x with
      | false =>
        have hres := hc7 hfails
        simp only [stopExistingStep, hres]
        refine ⟨by rw [hc1], hc2, hc3, hc4, hc5, ?_⟩
        intro d' hd'
        have h6 := hc6 d' hd'
        refine ⟨fun hi => ?_, h6.1⟩
        have h7 := h6.2 hi
        rw [hfails] at h7
        exact ⟨by simpa using h7.1, by rw [h7.2 rfl]; rfl⟩
      | true =>
        obtain ⟨e, hres⟩ : ∃ e, (stop dk db x.id).result = .error e :=
          ⟨_, hc8 hfails⟩
        simp only [stopExistingStep, hres]
        have hgid : ∀ y : Deployment,
            ({ y with status := DeploymentStatus.stopped,
                      stopped_at := some (stop dk db x.id).db.clock } : Deployment).id = y.id :=
          fun _ => rfl
        refine ⟨by rw [hc1], hc2, hc3, hc4, ?_, ?_⟩
        · have hids : (({ (stop dk db x.id).db.updateDeployment x.id fun y =>
              { y with status := DeploymentStatus.stopped,
                       stopped_at := some (stop dk db x.id).db.clock }
              with clock := (stop dk db x.id).db.clock + 1 } : DB)).depIds =
              ((stop dk db x.id).db.updateDeployment x.id fun y =>
              { y with status := DeploymentStatus.stopped,
                       stopped_at := some (stop dk db x.id).db.clock }).depIds := rfl
          rw [hids, DB.depIds_update hgid, hc5]
        · intro d' hd'
          have hd2 : d' ∈ ((stop dk db x.id).db.updateDeployment x.id fun y =>
              { y with status := DeploymentStatus.stopped,
                       stopped_at := some (stop dk db x.id).db.clock }).deployments := hd'
          have h1 := DB.mem_update_cases hd2 hgid
          constructor
          · intro hi
            obtain ⟨y, _, _, hy⟩ := h1.2 hi
            rw [hy]
            exact ⟨rfl, rfl⟩
          · intro hne
            exact (hc6 d' (h1.1 hne)).1 hne
    -- apply the induction hypothesis to the rest
    set db1 := (stopExistingStep dk (db, calls0) x).1 with hdb1
    set calls1 := (stopExistingStep dk (db, calls0) x).2 with hcalls1
    have hxid_rest : x.id ∉ rest.map (fun d => d.id) := by
      have := hnodup
      simp only [List.map_cons, List.nodup_cons] at this
      exact this.1
    have hmem1 : ∀ x' ∈ rest, x' ∈ db1.deployments := by
      intro x' hx'
      have hx'db : x' ∈ db.deployments := hmem x' (by simp [hx'])
      have hxne : x'.id ≠ x.id := by
        intro hcontra
        exact hxid_rest (hcontra ▸ List.mem_map_of_mem _ hx')
      have hidmem : x'.id ∈ db1.depIds := by
        rw [hstep.2.2.2.2.1]
        exact List.mem_map_of_mem _ hx'db
      obtain ⟨y, hy, hyid⟩ := DB.exists_of_id_mem hidmem
      have hydb : y ∈ db.deployments := ((hstep.2.2.2.2.2 y hy).2 (hyid ▸ hxne))
      have : y = x' := huniq x' (by simp [hx']) y hydb hyid
      exact this ▸ hy
    have huniq1 : ∀ x' ∈ rest, ∀ d' ∈ db1.deployments, d'.id = x'.id → d' = x' := by
      intro x' hx' d' hd' hid
      have hxne : x'.id ≠ x.id := by
        intro hcontra
        exact hxid_rest (hcontra ▸ List.mem_map_of_mem _ hx')
      have hddb : d' ∈ db.deployments :=
        (hstep.2.2.2.2.2 d' hd').2 (hid ▸ hxne)
      exact huniq x' (by simp [hx']) d' hddb hid
    have hrest := ih db1 calls1
      (by simpa using hnodup.of_cons) hmem1 huniq1
      (fun x' hx' => hrun x' (by simp [hx']))
    have hacc : stopExistingStep dk (db, calls0) x = (db1, calls1) := rfl
    rw [List.foldl_cons, hacc]
    refine ⟨?_, ?_, ?_, ?_, ?_, ?_⟩
    · rw [hrest.1, hstep.2.1]
    · rw [hrest.2.1, hstep.2.2.1]
    · rw [hrest.2.2.1, hstep.2.2.2.1]
    · rw [hrest.2.2.2.1, hstep.2.2.2.2.1]
    · rw [hrest.2.2.2.2.1, hstep.1, List.flatMap_cons, List.append_assoc]
    · intro d' hd'
      have hr := hrest.2.2.2.2.2 d' hd'
      constructor
      · intro hin
        simp only [List.map_cons, List.mem_cons] at hin
        cases hin with
        | inl hx =>
          have : d'.id ∉ rest.map (fun d => d.id) := hx ▸ hxid_rest
          have hd1 : d' ∈ db1.deployments := hr.2 this
          exact (hstep.2.2.2.2.2 d' hd1).1 hx
        | inr hxs => exact hr.1 hxs
      · intro hout
        simp only [List.map_cons, List.mem_cons] at hout
        push_neg at hout
        have hd1 : d' ∈ db1.deployments := hr.2 hout.2
        exact (hstep.2.2.2.2.2 d' hd1).2 hout.1

/-- The snapshot `_stop_existing_deployments` iterates over. -/
def runningOf (db : DB) (a : Nat) : List Deployment :=
  db.deployments.filter
    (fun d => decide (d.agent_id = a ∧ d.status = DeploymentStatus.running))

/-- Effect of `_stop_existing_deployments` on a well-formed database: it
returns normally (exceptions are swallowed), preserves everything except
the agent's previously-`RUNNING` rows, marks each of those `STOPPED`
with a stop timestamp, leaves no `RUNNING` row for the agent, and its
adapter calls are exactly the per-row teardown attempts in snapshot
order. -/
theorem stopExisting_effect (dk : Docker) (db : DB) (a : Nat) (hwf : db.WF) :
    (stopExisting dk db a).1.next_id = db.next_id
    ∧ (stopExisting dk db a).1.agents = db.agents
    ∧ (stopExisting dk db a).1.components = db.components
    ∧ (stopExisting dk db a).1.depIds = db.depIds
    ∧ (stopExisting dk db a).2 = (runningOf db a).flatMap (stopAttemptCalls dk)
    ∧ (∀ d' ∈ (stopExisting dk db a).1.deployments,
        (d'.agent_id = a → d'.status ≠ DeploymentStatus.running)
        ∧ (d'.id ∈ (runningOf db a).map (fun d => d.id) →
            d'.status = DeploymentStatus.stopped ∧ d'.stopped_at.isSome)
        ∧ (d'.id ∉ (runningOf db a).map (fun d => d.id) → d' ∈ db.deployments)) := by
  have hnodup : ((runningOf db a).map (fun d => d.id)).Nodup :=
    hwf.1.sublist ((List.filter_sublist db.deployments).map (fun d => d.id))
  have hmem : ∀ x ∈ runningOf db a, x ∈ db.deployments :=
    fun x hx => (List.mem_filter.mp hx).1
  have hpred : ∀ x ∈ runningOf db a,
      x.agent_id = a ∧ x.status = DeploymentStatus.running :=
    fun x hx => of_decide_eq_true (List.mem_filter.mp hx).2
  have huniq : ∀ x ∈ runningOf db a, ∀ d' ∈ db.deployments, d'.id = x.id → d' = x :=
    fun x hx d' hd' hid => DB.unique_of_WF hwf (hmem x hx) hd' hid
  have hgo := stopExisting_go dk (runningOf db a) db [] hnodup hmem huniq
    (fun x hx => (hpred x hx).2)
  have hunfold : stopExisting dk db a
      = (runningOf db a).foldl (stopExistingStep dk) (db, []) := rfl
  rw [hunfold]
  refine ⟨hgo.1, hgo.2.1, hgo.2.2.1, hgo.2.2.2.1, by rw [hgo.2.2.2.2.1]; simp, ?_⟩
  intro d' hd'
  have h6 := hgo.2.2.2.2.2 d' hd'
  refine ⟨?_, h6.1, h6.2⟩
  intro hagent hrunning
  by_cases hin : d'.id ∈ (runningOf db a).map (fun d => d.id)
  · have := (h6.1 hin).1
    rw [hrunning] at this
    cases this
  · have hdb : d' ∈ db.deployments := h6.2 hin
    have : d' ∈ runningOf db a :=
      List.mem_filter.mpr ⟨hdb, decide_eq_true ⟨hagent, hrunning⟩⟩
    exact hin (List.mem_map_of_mem _ this)

/-- `_stop_existing_deployments` preserves well-formedness. -/
theorem stopExisting_WF {dk : Docker} {db : DB} {a : Nat} (hwf : db.WF) :
    (stopExisting dk db a).1.WF :=
  DB.WF_of_eq_depIds (stopExisting_effect dk db a hwf).2.2.2.1
    (stopExisting_effect dk db a hwf).1 hwf

/-- Updating the id of a freshly appended row touches only that row. -/
theorem updateDeployment_fresh {db : DB} {base : List Deployment} {nd : Deployment}
    {i : Nat} {f : Deployment → Deployment}
    (hdeps : db.deployments = base ++ [nd])
    (hbase : ∀ d ∈ base, d.id ≠ i) (hnd : nd.id = i) :
    (db.updateDeployment i f).deployments = base ++ [f nd] := by
  show (db.deployments.map (fun d => if d.id = i then f d else d)) = base ++ [f nd]
  rw [hdeps, List.map_append]
  congr 1
  · have h : List.map (fun d => if d.id = i then f d else d) base = List.map id base :=
      List.map_congr_left (fun d hd => by simp [hbase d hd])
    rw [h, List.map_id]
  · simp [hnd]

/-- Characterization of `deploy` when the agent exists: the final table
is the post-`_stop_existing_deployments` table plus exactly one new row
for this agent with the fresh id; on an exception the new row is
`FAILED` with the exception's message persisted, on success it is
`RUNNING`. -/
theorem deploy_effect (dk : Docker) (db : DB) (a v : Nat) (u : Option Nat)
    (hwf : db.WF) (ha : a ∈ db.agents) :
    ∃ dNew : Deployment,
      (deploy dk db a v u).db.deployments
        = (stopExisting dk db a).1.deployments ++ [dNew]
      ∧ dNew.id = db.next_id
      ∧ dNew.agent_id = a
      ∧ (deploy dk db a v u).db.next_id = db.next_id + 1
      ∧ (deploy dk db a v u).db.agents = db.agents
      ∧ (deploy dk db a v u).db.depIds = db.depIds ++ [db.next_id]
      ∧ (∀ e, (deploy dk db a v u).result = .error e →
          dNew.status = DeploymentStatus.failed ∧ dNew.error_message = some e.str)
      ∧ (∀ r, (deploy dk db a v u).result = .ok r →
          dNew.status = DeploymentStatus.running) := by
  have hwf1 : (stopExisting dk db a).1.WF := stopExisting_WF hwf
  have hse := stopExisting_effect dk db a hwf
  have hbase : ∀ d ∈ (stopExisting dk db a).1.deployments,
      d.id ≠ (stopExisting dk db a).1.next_id :=
    fun d hd => Nat.ne_of_lt (hwf1.2 d hd)
  have hdepIds : ∀ (dNew : Deployment) (deps : List Deployment),
      deps = (stopExisting dk db a).1.deployments ++ [dNew] →
      dNew.id = db.next_id →
      deps.map (fun d => d.id) = db.depIds ++ [db.next_id] := by
    intro dNew deps h1 h2
    rw [h1, List.map_append]
    have h3 : (stopExisting dk db a).1.deployments.map (fun d => d.id) = db.depIds :=
      hse.2.2.2.1
    rw [h3]
    simp [h2]
  unfold deploy
  rw [if_neg (not_not_intro ha)]
  dsimp only
  split
  next m heq =>
    refine ⟨_, updateDeployment_fresh
        (updateDeployment_fresh rfl hbase rfl) hbase rfl, ?_⟩
    refine ⟨hse.1, rfl, congrArg (fun n => n + 1) hse.1, hse.2.1, ?_, ?_, ?_⟩
    · exact hdepIds _ _ (updateDeployment_fresh
        (updateDeployment_fresh rfl hbase rfl) hbase rfl) hse.1
    · intro e he
      cases he
      exact ⟨rfl, rfl⟩
    · intro r hr
      cases hr
  next config heq =>
    split
    next m heq2 =>
      refine ⟨_, updateDeployment_fresh
          (updateDeployment_fresh rfl hbase rfl) hbase rfl, ?_⟩
      refine ⟨hse.1, rfl, congrArg (fun n => n + 1) hse.1, hse.2.1, ?_, ?_, ?_⟩
      · exact hdepIds _ _ (updateDeployment_fresh
          (updateDeployment_fresh rfl hbase rfl) hbase rfl) hse.1
      · intro e he
        cases he
        exact ⟨rfl, rfl⟩
      · intro r hr
        cases hr
    next image_id heq2 =>
      split
      next m heq3 =>
        refine ⟨_, updateDeployment_fresh (updateDeployment_fresh
            (updateDeployment_fresh (updateDeployment_fresh rfl hbase rfl)
              hbase rfl) hbase rfl) hbase rfl, ?_⟩
        refine ⟨hse.1, rfl, congrArg (fun n => n + 1) hse.1, hse.2.1, ?_, ?_, ?_⟩
        · exact hdepIds _ _ (updateDeployment_fresh (updateDeployment_fresh
            (updateDeployment_fresh (updateDeployment_fresh rfl hbase rfl)
              hbase rfl) hbase rfl) hbase rfl) hse.1
        · intro e he
          cases he
          exact ⟨rfl, rfl⟩
        · intro r hr
          cases hr
      next container_id port heq3 =>
        refine ⟨_, updateDeployment_fresh (updateDeployment_fresh
            (updateDeployment_fresh (updateDeployment_fresh rfl hbase rfl)
              hbase rfl) hbase rfl) hbase rfl, ?_⟩
        refine ⟨hse.1, rfl, congrArg (fun n => n + 1) hse.1, hse.2.1, ?_, ?_, ?_⟩
        · exact hdepIds _ _ (updateDeployment_fresh (updateDeployment_fresh
            (updateDeployment_fresh (updateDeployment_fresh rfl hbase rfl)
              hbase rfl) hbase rfl) hbase rfl) hse.1
        · intro e he
          cases he
        · intro r hr
          exact rfl

/-- `deploy` on a missing agent leaves the database untouched. -/
theorem deploy_no_agent {dk : Docker} {db : DB} {a v : Nat} {u : Option Nat}
    (ha : ¬ a ∈ db.agents) :
    deploy dk db a v u =
      { db := db, calls := []
        result := .error (.valueError ("Agent " ++ toString a ++ " not found")) } := by
  unfold deploy
  rw [if_pos ha]

/-- `deploy` preserves well-formedness. -/
theorem deploy_WF {dk : Docker} {db : DB} {a v : Nat} {u : Option Nat}
    (hwf : db.WF) : (deploy dk db a v u).db.WF := by
  by_cases ha : a ∈ db.agents
  · obtain ⟨dNew, _, _, _, hnext, _, hids, _, _⟩ := deploy_effect dk db a v u hwf ha
    constructor
    · show (deploy dk db a v u).db.depIds.Nodup
      rw [hids]
      have hlt : ∀ j ∈ db.depIds, j < db.next_id := by
        intro j hj
        obtain ⟨y, hy, hyid⟩ := DB.exists_of_id_mem hj
        exact hyid ▸ hwf.2 y hy
      refine List.Nodup.append hwf.1 (List.nodup_singleton _) ?_
      intro j hj hj'
      rw [List.mem_singleton] at hj'
      exact absurd (hlt j hj) (by rw [hj']; exact Nat.lt_irrefl _)
    · intro d hd
      have : d.id ∈ (deploy dk db a v u).db.depIds := List.mem_map_of_mem _ hd
      rw [hids] at this
      rw [hnext]
      rcases List.mem_append.mp this with hin | hin
      · obtain ⟨y, hy, hyid⟩ := DB.exists_of_id_mem hin
        exact Nat.lt_succ_of_lt (hyid ▸ hwf.2 y hy)
      · rw [List.mem_singleton] at hin
        rw [hin]
        exact Nat.lt_succ_self _
  · rw [deploy_no_agent ha]
    exact hwf

/-- `stop` preserves well-formedness. -/
theorem stop_WF {dk : Docker} {db : DB} {i : Nat} (hwf : db.WF) :
    (stop dk db i).db.WF := by
  cases hfind : db.findDeployment i with
  | none =>
    rw [stop_no_deployment hfind]
    exact hwf
  | some d =>
    by_cases hrun : d.status = DeploymentStatus.running
    · obtain ⟨_, h2, _, _, h5, _⟩ := stop_running_effect dk hfind hrun
      exact DB.WF_of_eq_depIds h5 h2 hwf
    · rw [stop_not_running hfind hrun]
      exact hwf

end DeploymentService

namespace Routers

open DeploymentService in
/-- Effect of the `stop_all_deployments` loop over a snapshot `L` of
distinct, present, `RUNNING` rows: every row is attempted in order, the
success/failure counters partition `L` by whether the row's teardown
raises, each failure contributes one detail entry, rows whose teardown
succeeds end `STOPPED`, and rows outside `L` are untouched. -/
theorem stopAll_go (dk : Docker) :
    ∀ (L : List Deployment) (db : DB) (calls0 : List Call) (s0 f0 : Nat)
      (errs0 : List (Nat × Nat × String)),
    (L.map (fun d => d.id)).Nodup →
    (∀ x ∈ L, x ∈ db.deployments) →
    (∀ x ∈ L, ∀ d' ∈ db.deployments, d'.id = x.id → d' = x) →
    (∀ x ∈ L, x.status = DeploymentStatus.running) →
    (L.foldl (stopAllStep dk) (db, calls0, s0, f0, errs0)).1.next_id = db.next_id
    ∧ (L.foldl (stopAllStep dk) (db, calls0, s0, f0, errs0)).1.depIds = db.depIds
    ∧ (L.foldl (stopAllStep dk) (db, calls0, s0, f0, errs0)).2.1
        = calls0 ++ L.flatMap (stopAttemptCalls dk)
    ∧ (L.foldl (stopAllStep dk) (db, calls0, s0, f0, errs0)).2.2.1
        = s0 + (L.filter (fun d => !stopCallFails dk d)).length
    ∧ (L.foldl (stopAllStep dk) (db, calls0, s0, f0, errs0)).2.2.2.1
        = f0 + (L.filter (fun d => stopCallFails dk d)).length
    ∧ (L.foldl (stopAllStep dk) (db, calls0, s0, f0, errs0)).2.2.2.2
        = errs0 ++ (L.filter (fun d => stopCallFails dk d)).map
            (fun d => (d.id, d.agent_id, stopFailMsg dk d))
    ∧ (∀ d' ∈ (L.foldl (stopAllStep dk) (db, calls0, s0, f0, errs0)).1.deployments,
        (d'.id ∈ (L.filter (fun d => !stopCallFails dk d)).map (fun d => d.id) →
          d'.status = DeploymentStatus.stopped)
        ∧ (d'.id ∉ L.map (fun d => d.id) → d' ∈ db.deployments)) := by
  intro L
  induction L with
  | nil =>
    intro db calls0 s0 f0 errs0 _ _ _ _
    exact ⟨rfl, rfl, by simp, by simp, by simp, by simp, fun d' hd' =>
      ⟨fun hin => absurd hin (by simp), fun _ => hd'⟩⟩
  | cons x rest ih =>
    intro db calls0 s0 f0 errs0 hnodup hmem huniq hrun
    have hxdb : x ∈ db.deployments := hmem x (by simp)
    have hfind : db.findDeployment x.id = some x :=
      DB.findDeployment_of_unique hxdb (huniq x (by simp))
    obtain ⟨hc1, hc2, hc3, hc4, hc5, hc6, hc7, hc8⟩ :=
      stop_running_effect dk hfind (hrun x (by simp))
    have hxid_rest : x.id ∉ rest.map (fun d => d.id) := by
      have h := hnodup
      simp only [List.map_cons, List.nodup_cons] at h
      exact h.1
    -- characterize the single step
    have hstep :
        (stopAllStep dk (db, calls0, s0, f0, errs0) x).1.next_id = db.next_id
        ∧ (stopAllStep dk (db, calls0, s0, f0, errs0) x).1.depIds = db.depIds
        ∧ (stopAllStep dk (db, calls0, s0, f0, errs0) x).2.1
            = calls0 ++ stopAttemptCalls dk x
        ∧ (stopAllStep dk (db, calls0, s0, f0, errs0) x).2.2.1
            = (if stopCallFails dk x then s0 else s0 + 1)
        ∧ (stopAllStep dk (db, calls0, s0, f0, errs0) x).2.2.2.1
            = (if stopCallFails dk x then f0 + 1 else f0)
        ∧ (stopAllStep dk (db, calls0, s0, f0, errs0) x).2.2.2.2
            = (if stopCallFails dk x then
                errs0 ++ [(x.id, x.agent_id, stopFailMsg dk x)] else errs0)
        ∧ (∀ d' ∈ (stopAllStep dk (db, calls0, s0, f0, errs0) x).1.deployments,
            (d'.id = x.id → stopCallFails dk x = false →
              d'.status = DeploymentStatus.stopped)
            ∧ (d'.id ≠ x.id → d' ∈ db.deployments)) := by
      cases hfails : stopCallFails dk x with
      | false =>
        have hres := hc7 hfails
        simp only [stopAllStep, hres]
        refine ⟨hc2, hc5, by rw [hc1], by simp, by simp, by simp, ?_⟩
        intro d' hd'
        have h6 := hc6 d' hd'
        refine ⟨fun hi _ => ?_, h6.1⟩
        have h7 := (h6.2 hi).1
        rw [hfails] at h7
        simpa using h7
      | true =>
        have hres := hc8 hfails
        simp only [stopAllStep, hres]
        refine ⟨hc2, hc5, by rw [hc1], by simp, by simp, by simp [Err.str], ?_⟩
        intro d' hd'
        have h6 := hc6 d' hd'
        exact ⟨fun _ hfalse => (nomatch hfalse), h6.1⟩
    set acc1 := stopAllStep dk (db, calls0, s0, f0, errs0) x with hacc1
    have hmem1 : ∀ x' ∈ rest, x' ∈ acc1.1.deployments := by
      intro x' hx'
      have hx'db : x' ∈ db.deployments := hmem x' (by simp [hx'])
      have hxne : x'.id ≠ x.id := by
        intro hcontra
        exact hxid_rest (hcontra ▸ List.mem_map_of_mem _ hx')
      have hidmem : x'.id ∈ acc1.1.depIds := by
        rw [hstep.2.1]
        exact List.mem_map_of_mem _ hx'db
      obtain ⟨y, hy, hyid⟩ := DB.exists_of_id_mem hidmem
      have hydb : y ∈ db.deployments := (hstep.2.2.2.2.2.2 y hy).2 (hyid ▸ hxne)
      have heq : y = x' := huniq x' (by simp [hx']) y hydb hyid
      exact heq ▸ hy
    have huniq1 : ∀ x' ∈ rest, ∀ d' ∈ acc1.1.deployments, d'.id = x'.id → d' = x' := by
      intro x' hx' d' hd' hid
      have hxne : x'.id ≠ x.id := by
        intro hcontra
        exact hxid_rest (hcontra ▸ List.mem_map_of_mem _ hx')
      have hddb : d' ∈ db.deployments := (hstep.2.2.2.2.2.2 d' hd').2 (hid ▸ hxne)
      exact huniq x' (by simp [hx']) d' hddb hid
    have hrest := ih acc1.1 acc1.2.1 acc1.2.2.1 acc1.2.2.2.1 acc1.2.2.2.2
      (by simpa using hnodup.of_cons) hmem1 huniq1
      (fun x' hx' => hrun x' (by simp [hx']))
    have hacc : stopAllStep dk (db, calls0, s0, f0, errs0) x
        = (acc1.1, acc1.2.1, acc1.2.2.1, acc1.2.2.2.1, acc1.2.2.2.2) := rfl
    rw [List.foldl_cons, hacc]
    cases hfails : stopCallFails dk x with
    | false =>
      rw [hfails] at hstep
      simp only [if_neg (by simp : ¬ (false = true))] at hstep
      refine ⟨by rw [hrest.1, hstep.1], by rw [hrest.2.1, hstep.2.1], ?_, ?_, ?_, ?_, ?_⟩
      · rw [hrest.2.2.1, hstep.2.2.1, List.flatMap_cons, List.append_assoc]
      · rw [hrest.2.2.2.1, hstep.2.2.2.1]
        simp [List.filter_cons, hfails, Nat.add_assoc, Nat.add_comm 1]
      · rw [hrest.2.2.2.2.1, hstep.2.2.2.2.1]
        simp [List.filter_cons, hfails]
      · rw [hrest.2.2.2.2.2.1, hstep.2.2.2.2.2.1]
        simp [List.filter_cons, hfails]
      · intro d' hd'
        have hr := hrest.2.2.2.2.2.2 d' hd'
        constructor
        · intro hin
          rw [List.filter_cons] at hin
          simp only [hfails, Bool.not_false, if_pos] at hin
          rw [List.map_cons, List.mem_cons] at hin
          cases hin with
          | inl hx =>
            have hnotin : d'.id ∉ rest.map (fun d => d.id) := hx ▸ hxid_rest
            have hd1 : d' ∈ acc1.1.deployments := hr.2 hnotin
            exact (hstep.2.2.2.2.2.2 d' hd1).1 hx (by simp)
          | inr hxs => exact hr.1 hxs
        · intro hout
          simp only [List.map_cons, List.mem_cons] at hout
          push_neg at hout
          have hd1 : d' ∈ acc1.1.deployments := hr.2 hout.2
          exact (hstep.2.2.2.2.2.2 d' hd1).2 hout.1
    | true =>
      rw [hfails] at hstep
      simp only [if_pos rfl] at hstep
      refine ⟨by rw [hrest.1, hstep.1], by rw [hrest.2.1, hstep.2.1], ?_, ?_, ?_, ?_, ?_⟩
      · rw [hrest.2.2.1, hstep.2.2.1, List.flatMap_cons, List.append_assoc]
      · rw [hrest.2.2.2.1, hstep.2.2.2.1]
        simp [List.filter_cons, hfails]
      · rw [hrest.2.2.2.2.1, hstep.2.2.2.2.1]
        simp [List.filter_cons, hfails, Nat.add_assoc, Nat.add_comm 1]
      · rw [hrest.2.2.2.2.2.1, hstep.2.2.2.2.2.1]
        simp [List.filter_cons, hfails, List.append_assoc]
      · intro d' hd'
        have hr := hrest.2.2.2.2.2.2 d' hd'
        constructor
        · intro hin
          rw [List.filter_cons] at hin
          simp only [hfails, Bool.not_true, if_neg] at hin
          exact hr.1 (by simpa using hin)
        · intro hout
          simp only [List.map_cons, List.mem_cons] at hout
          push_neg at hout
          have hd1 : d' ∈ acc1.1.deployments := hr.2 hout.2
          exact (hstep.2.2.2.2.2.2 d' hd1).2 hout.1

/-- The snapshot `stop_all_deployments` iterates over: every `RUNNING`
deployment. -/
def runningAll (db : DB) : List Deployment :=
  db.deployments.filter (fun d => decide (d.status = DeploymentStatus.running))

open DeploymentService in
/-- Effect of `stop_all_deployments` on a well-formed database. -/
theorem stop_all_effect (dk : Docker) (db : DB) (hwf : db.WF) :
    (stop_all_deployments dk db).1.next_id = db.next_id
    ∧ (stop_all_deployments dk db).1.depIds = db.depIds
    ∧ (stop_all_deployments dk db).2.1
        = (runningAll db).flatMap (stopAttemptCalls dk)
    ∧ (stop_all_deployments dk db).2.2.stopped_count
        = ((runningAll db).filter (fun d => !stopCallFails dk d)).length
    ∧ (stop_all_deployments dk db).2.2.failed_count
        = ((runningAll db).filter (fun d => stopCallFails dk d)).length
    ∧ (stop_all_deployments dk db).2.2.errors
        = (if (((runningAll db).filter (fun d => stopCallFails dk d)).map
              (fun d => (d.id, d.agent_id, stopFailMsg dk d))).isEmpty then none
           else some (((runningAll db).filter (fun d => stopCallFails dk d)).map
              (fun d => (d.id, d.agent_id, stopFailMsg dk d))))
    ∧ (∀ d' ∈ (stop_all_deployments dk db).1.deployments,
        (d'.id ∈ ((runningAll db).filter (fun d => !stopCallFails dk d)).map
            (fun d => d.id) → d'.status = DeploymentStatus.stopped)
        ∧ (d'.id ∉ (runningAll db).map (fun d => d.id) → d' ∈ db.deployments)) := by
  have hnodup : ((runningAll db).map (fun d => d.id)).Nodup :=
    hwf.1.sublist ((List.filter_sublist db.deployments).map (fun d => d.id))
  have hmem : ∀ x ∈ runningAll db, x ∈ db.deployments :=
    fun x hx => (List.mem_filter.mp hx).1
  have hrun : ∀ x ∈ runningAll db, x.status = DeploymentStatus.running :=
    fun x hx => of_decide_eq_true (List.mem_filter.mp hx).2
  have huniq : ∀ x ∈ runningAll db, ∀ d' ∈ db.deployments, d'.id = x.id → d' = x :=
    fun x hx d' hd' hid => DB.unique_of_WF hwf (hmem x hx) hd' hid
  have hgo := stopAll_go dk (runningAll db) db [] 0 0 [] hnodup hmem huniq hrun
  have hunfold : stop_all_deployments dk db
      = (((runningAll db).foldl (stopAllStep dk) (db, [], 0, 0, [])).1,
         ((runningAll db).foldl (stopAllStep dk) (db, [], 0, 0, [])).2.1,
         { message := "Stopped "
             ++ toString ((runningAll db).foldl (stopAllStep dk) (db, [], 0, 0, [])).2.2.1
             ++ " deployment(s)"
           stopped_count :=
             ((runningAll db).foldl (stopAllStep dk) (db, [], 0, 0, [])).2.2.1
           failed_count :=
             ((runningAll db).foldl (stopAllStep dk) (db, [], 0, 0, [])).2.2.2.1
           errors :=
             if ((runningAll db).foldl (stopAllStep dk) (db, [], 0, 0, [])).2.2.2.2.isEmpty
             then none
             else some ((runningAll db).foldl (stopAllStep dk) (db, [], 0, 0, [])).2.2.2.2 }) :=
    rfl
  rw [hunfold]
  refine ⟨hgo.1, hgo.2.1, by rw [hgo.2.2.1]; simp, by rw [hgo.2.2.2.1]; simp,
    by rw [hgo.2.2.2.2.1]; simp, ?_, hgo.2.2.2.2.2.2⟩
  rw [hgo.2.2.2.2.2.1]
  simp

/-- `stop_all_deployments` preserves well-formedness. -/
theorem stop_all_WF {dk : Docker} {db : DB} (hwf : db.WF) :
    (stop_all_deployments dk db).1.WF :=
  DB.WF_of_eq_depIds (stop_all_effect dk db hwf).2.1 (stop_all_effect dk db hwf).1 hwf

end Routers

/-- `get_status` never writes: the database it returns is the one it was
given. -/
theorem DeploymentService.get_status_db (dk : Docker) (db : DB) (i : Nat) :
    (DeploymentService.get_status dk db i).db = db := rfl

/-- A terminal status is not `RUNNING`. -/
theorem DeploymentStatus.terminal_ne_running {s : DeploymentStatus}
    (h : s.terminal) : s ≠ DeploymentStatus.running := by
  rcases h with h | h <;> rw [h] <;> exact fun hc => nomatch hc

/-! ## Ordered containment of sections in a joined document -/

/-- The strings of `parts` occur, in order and without overlap, inside
`s`. -/
def containsInOrder (s : String) : List String → Prop
  | [] => True
  | x :: xs => ∃ p r, s = p ++ x ++ r ∧ containsInOrder r xs

/-- The line blocks of `parts` occur, in order and without overlap, as
contiguous runs inside the line list `L`. -/
def linesInOrder (L : List String) : List (List String) → Prop
  | [] => True
  | p :: ps => ∃ pre rest, L = pre ++ p ++ rest ∧ linesInOrder rest ps

theorem containsInOrder_prepend {s t : String} {parts : List String}
    (h : containsInOrder s parts) : containsInOrder (t ++ s) parts := by
  cases parts with
  | nil => trivial
  | cons x xs =>
    obtain ⟨p, r, heq, hrest⟩ := h
    exact ⟨t ++ p, r, by rw [heq, ← String.append_assoc, ← String.append_assoc], hrest⟩

theorem linesInOrder_of_nil {parts : List (List String)}
    (h : linesInOrder [] parts) (hne : ∀ p ∈ parts, p ≠ []) : parts = [] := by
  cases parts with
  | nil => rfl
  | cons p ps =>
    obtain ⟨pre, rest, heq, _⟩ := h
    have h2 := (List.append_eq_nil.mp (List.append_eq_nil.mp heq.symm).1).2
    exact absurd h2 (hne p (by simp))

theorem linesInOrder_flatMap {α : Type} (f : α → List String) :
    ∀ (L : List α), linesInOrder (L.flatMap f) (L.map f)
  | [] => trivial
  | x :: rest =>
    ⟨[], List.flatMap rest f, by simp, linesInOrder_flatMap f rest⟩

theorem linesInOrder_prepend {L A : List String} {parts : List (List String)}
    (h : linesInOrder L parts) : linesInOrder (A ++ L) parts := by
  cases parts with
  | nil => trivial
  | cons p ps =>
    obtain ⟨pre, rest, heq, hrest⟩ := h
    exact ⟨A ++ pre, rest, by rw [heq]; simp, hrest⟩

theorem linesInOrder_append {L1 L2 : List String} {ps1 ps2 : List (List String)}
    (h1 : linesInOrder L1 ps1) (h2 : linesInOrder L2 ps2) :
    linesInOrder (L1 ++ L2) (ps1 ++ ps2) := by
  induction ps1 generalizing L1 with
  | nil =>
    simp only [List.nil_append]
    exact linesInOrder_prepend h2
  | cons p ps1 ih =>
    obtain ⟨pre, rest, heq, hrest⟩ := h1
    exact ⟨pre, rest ++ L2, by rw [heq]; simp, ih hrest⟩

theorem joinStr_cons_ne {sep x : String} {z : List String} (hz : z ≠ []) :
    joinStr sep (x :: z) = x ++ sep ++ joinStr sep z := by
  cases z with
  | nil => exact absurd rfl hz
  | cons y ys => rfl

theorem joinStr_append {sep : String} {a b : List String}
    (ha : a ≠ []) (hb : b ≠ []) :
    joinStr sep (a ++ b) = joinStr sep a ++ sep ++ joinStr sep b := by
  induction a with
  | nil => exact absurd rfl ha
  | cons x a' ih =>
    cases ha' : a' with
    | nil =>
      cases b with
      | nil => exact absurd rfl hb
      | cons y ys => rfl
    | cons z zs =>
      have hane : a' ≠ [] := by simp [ha']
      rw [← ha', List.cons_append,
        joinStr_cons_ne (fun hc => hane (List.append_eq_nil.mp hc).1),
        joinStr_cons_ne hane, ih hane]
      simp [String.append_assoc]

/-- Contiguous in-order runs of lines become in-order substrings of the
joined document. -/
theorem containsInOrder_joinStr {sep : String} :
    ∀ (parts : List (List String)) (L : List String),
    linesInOrder L parts → (∀ p ∈ parts, p ≠ []) →
    containsInOrder (joinStr sep L) (parts.map (joinStr sep)) := by
  intro parts
  induction parts with
  | nil => intro L _ _; trivial
  | cons p ps ih =>
    intro L h hne
    obtain ⟨pre, rest, heq, hrest⟩ := h
    have hp : p ≠ [] := hne p (by simp)
    cases hr : rest with
    | nil =>
      have hps : ps = [] :=
        linesInOrder_of_nil (hr ▸ hrest) (fun q hq => hne q (by simp [hq]))
      subst hps
      cases hpre : pre with
      | nil =>
        refine ⟨"", "", ?_, trivial⟩
        rw [heq, hpre, hr]
        simp
      | cons w ws =>
        refine ⟨joinStr sep pre ++ sep, "", ?_, trivial⟩
        rw [heq, hr, List.append_nil, joinStr_append (by simp [hpre]) hp]
        simp
    | cons w ws =>
      have hrne : rest ≠ [] := by simp [hr]
      have ihr := ih rest hrest (fun q hq => hne q (by simp [hq]))
      cases hpre : pre with
      | nil =>
        refine ⟨"", sep ++ joinStr sep rest, ?_, containsInOrder_prepend ihr⟩
        rw [heq, hpre, List.nil_append, joinStr_append hp hrne]
        simp [String.append_assoc]
      | cons v vs =>
        have hprene : pre ≠ [] := by simp [hpre]
        have hppne : pre ++ p ≠ [] := fun hcontra =>
          hp (List.append_eq_nil.mp hcontra).2
        refine ⟨joinStr sep pre ++ sep, sep ++ joinStr sep rest, ?_,
          containsInOrder_prepend ihr⟩
        rw [heq, joinStr_append hppne hrne, joinStr_append hprene hp]
        simp [String.append_assoc]

/-- One orchestrator operation preserves well-formedness, never removes a
row id, and never changes the status of a row that is already terminal. -/
theorem orch_step_effect {db db' : DB} (hstep : OrchStep db db') (hwf : db.WF) :
    db'.WF
    ∧ (∀ j ∈ db.depIds, j ∈ db'.depIds)
    ∧ (∀ d ∈ db.deployments, d.status.terminal →
        ∀ d' ∈ db'.deployments, d'.id = d.id → d'.status = d.status) := by
  have hsame : ∀ (dbz : DB), dbz = db →
      (∀ d ∈ db.deployments, d.status.terminal →
        ∀ d' ∈ dbz.deployments, d'.id = d.id → d'.status = d.status) := by
    rintro _ rfl d hd _ d' hd' hid
    rw [DB.unique_of_WF hwf hd hd' hid]
  have hnotof : ∀ (a : Nat) (d : Deployment), d ∈ db.deployments → d.status.terminal →
      d.id ∉ (DeploymentService.runningOf db a).map (fun x => x.id) := by
    intro a d hd hterm hin
    obtain ⟨x, hx, hxid⟩ := List.mem_map.mp hin
    have hxdb : x ∈ db.deployments := (List.mem_filter.mp hx).1
    have hxrun : x.status = DeploymentStatus.running :=
      (of_decide_eq_true (List.mem_filter.mp hx).2).2
    have hxe : x = d := DB.unique_of_WF hwf hd hxdb hxid
    rw [hxe] at hxrun
    exact DeploymentStatus.terminal_ne_running hterm hxrun
  have hnotall : ∀ (d : Deployment), d ∈ db.deployments → d.status.terminal →
      d.id ∉ (Routers.runningAll db).map (fun x => x.id) := by
    intro d hd hterm hin
    obtain ⟨x, hx, hxid⟩ := List.mem_map.mp hin
    have hxdb : x ∈ db.deployments := (List.mem_filter.mp hx).1
    have hxrun : x.status = DeploymentStatus.running :=
      of_decide_eq_true (List.mem_filter.mp hx).2
    have hxe : x = d := DB.unique_of_WF hwf hd hxdb hxid
    rw [hxe] at hxrun
    exact DeploymentStatus.terminal_ne_running hterm hxrun
  cases hstep with
  | deploy dk dbx a v u =>
    by_cases ha : a ∈ db.agents
    · obtain ⟨dNew, hdeps, hnid, _, _, _, hids, _, _⟩ :=
        DeploymentService.deploy_effect dk db a v u hwf ha
      have hse := DeploymentService.stopExisting_effect dk db a hwf
      refine ⟨DeploymentService.deploy_WF hwf, ?_, ?_⟩
      · intro j hj
        show j ∈ (DeploymentService.deploy dk db a v u).db.depIds
        rw [hids]
        exact List.mem_append_left _ hj
      · intro d hd hterm d' hd' hid
        rw [hdeps] at hd'
        rcases List.mem_append.mp hd' with h1 | h1
        · have h6 := hse.2.2.2.2.2 d' h1
          have hddb : d' ∈ db.deployments := h6.2.2 (hid ▸ hnotof a d hd hterm)
          rw [DB.unique_of_WF hwf hd hddb hid]
        · rw [List.mem_singleton] at h1
          have hlt : d.id < db.next_id := hwf.2 d hd
          rw [h1] at hid
          rw [hnid] at hid
          exact absurd (hid ▸ hlt) (Nat.lt_irrefl _)
    · rw [DeploymentService.deploy_no_agent ha]
      exact ⟨hwf, fun j hj => hj, hsame _ rfl⟩
  | stop dk dbx i =>
    cases hfind : db.findDeployment i with
    | none =>
      rw [DeploymentService.stop_no_deployment hfind]
      exact ⟨hwf, fun j hj => hj, hsame _ rfl⟩
    | some dfound =>
      by_cases hrunf : dfound.status = DeploymentStatus.running
      · obtain ⟨_, h2, _, _, h5, h6, _, _⟩ :=
          DeploymentService.stop_running_effect dk hfind hrunf
        refine ⟨DB.WF_of_eq_depIds h5 h2 hwf, fun j hj => by rw [h5]; exact hj, ?_⟩
        intro d hd hterm d' hd' hid
        have h7 := h6 d' hd'
        by_cases hdi : d.id = i
        · exfalso
          have hfd : dfound ∈ db.deployments := (DB.findDeployment_eq_some hfind).1
          have hfi : dfound.id = i := (DB.findDeployment_eq_some hfind).2
          have hde : dfound = d := DB.unique_of_WF hwf hd hfd (by rw [hfi, hdi])
          rw [hde] at hrunf
          exact DeploymentStatus.terminal_ne_running hterm hrunf
        · have hddb : d' ∈ db.deployments := h7.1 (hid ▸ hdi)
          rw [DB.unique_of_WF hwf hd hddb hid]
      · rw [DeploymentService.stop_not_running hfind hrunf]
        exact ⟨hwf, fun j hj => hj, hsame _ rfl⟩
  | stopExisting dk dbx a =>
    have hse := DeploymentService.stopExisting_effect dk db a hwf
    refine ⟨DeploymentService.stopExisting_WF hwf,
      fun j hj => by rw [hse.2.2.2.1]; exact hj, ?_⟩
    intro d hd hterm d' hd' hid
    have h6 := hse.2.2.2.2.2 d' hd'
    have hddb : d' ∈ db.deployments := h6.2.2 (hid ▸ hnotof a d hd hterm)
    rw [DB.unique_of_WF hwf hd hddb hid]
  | getStatus dk dbx i =>
    rw [DeploymentService.get_status_db]
    exact ⟨hwf, fun j hj => hj, hsame _ rfl⟩
  | stopAll dk dbx =>
    have hsa := Routers.stop_all_effect dk db hwf
    refine ⟨Routers.stop_all_WF hwf, fun j hj => by rw [hsa.2.1]; exact hj, ?_⟩
    intro d hd hterm d' hd' hid
    have h6 := hsa.2.2.2.2.2.2 d' hd'
    have hddb : d' ∈ db.deployments := h6.2 (hid ▸ hnotall d hd hterm)
    rw [DB.unique_of_WF hwf hd hddb hid]

/-- Reachability preserves well-formedness, row ids, and terminal
statuses. -/
theorem orch_reach_effect {db db' : DB} (hreach : OrchReach db db') (hwf : db.WF) :
    db'.WF
    ∧ (∀ j ∈ db.depIds, j ∈ db'.depIds)
    ∧ (∀ d ∈ db.deployments, d.status.terminal →
        ∀ d' ∈ db'.deployments, d'.id = d.id → d'.status = d.status) := by
  induction hreach with
  | refl =>
    refine ⟨hwf, fun j hj => hj, ?_⟩
    intro d hd _ d' hd' hid
    rw [DB.unique_of_WF hwf hd hd' hid]
  | tail hsteps hstep ih =>
    obtain ⟨hwfm, hidsm, hpresm⟩ := ih
    obtain ⟨hwf', hids', hpres'⟩ := orch_step_effect hstep hwfm
    refine ⟨hwf', fun j hj => hids' j (hidsm j hj), ?_⟩
    intro d hd hterm d'' hd'' hid
    have : d.id ∈ db.depIds := List.mem_map_of_mem _ hd
    obtain ⟨dm, hdm, hdmid⟩ := DB.exists_of_id_mem (hidsm _ this)
    have hstat : dm.status = d.status := hpresm d hd hterm dm hdm hdmid
    have htermm : dm.status.terminal := by rw [hstat]; exact hterm
    have := hpres' dm hdm htermm d'' hd'' (by rw [hid, hdmid])
    rw [this, hstat]

/-! ## Claims -/

/-! ### C2: determinism of compile -/

/-- C2.  `compile` is deterministic: for every component set, two calls of
`build_config` on identical input (same components, same field values,
same order) return byte-identical manifests.  The embedding of
`ConfigBuilder.build_config` is a pure function of the ordered component
list — the method performs no I/O beyond the initial query and consults
no other state — so equal inputs give equal manifests. -/
theorem C2_build_config_deterministic (cs1 cs2 : List Component) (h : cs1 = cs2) :
    ConfigBuilder.build_config cs1 = ConfigBuilder.build_config cs2 := by
  rw [h]

/-- A concrete skill component. -/
def skillGreet : Component :=
  { version_id := 1, type := .skill, name := "greet"
    description := some "Greets people", content := some "Say hello."
    config := none }

theorem C2_witness :
    ConfigBuilder.build_config [skillGreet] = ConfigBuilder.build_config [skillGreet] :=
  C2_build_config_deterministic [skillGreet] [skillGreet] rfl

/-! ### C5: tool components with absent or malformed config -/

/-- A tool component with absent (`NULL`) configuration. -/
def toolNoConfig : Component :=
  { version_id := 1, type := .mcp_tool, name := "search"
    description := none, content := none, config := none }

/-- C5 counterexample.  The claim says a tool component with absent
configuration still yields a no-op tool definition; in the code,
`_build_tools` skips a component whose config is falsy (`if tool.config:`),
so compiling a set whose only tool component has no config succeeds with
an *empty* tool list — no definition is produced for the component. -/
theorem C5_counterexample :
    ∃ m, ConfigBuilder.build_config [toolNoConfig] = Except.ok m ∧ m.tools = [] :=
  ⟨_, rfl, rfl⟩

/-- A tool component whose config has no embedded `tools` list (and no
default-worthy keys beyond `input_schema`). -/
def toolsKeyAbsent (c : Component) : Prop :=
  configTruthy c.config = false ∨ jsonLookup (c.config.getD []) "tools" = none

/-- The tool definitions one component contributes in the basic path. -/
def componentToolDefs (c : Component) : List Json :=
  if configTruthy c.config then [ConfigBuilder.basicToolDef c (c.config.getD [])]
  else []

theorem build_tools_go_safe :
    ∀ (L : List Component) (acc : List Json),
    (∀ c ∈ L, toolsKeyAbsent c) →
    ConfigBuilder.build_tools_go acc L = .ok (acc ++ L.flatMap componentToolDefs) := by
  intro L
  induction L with
  | nil => intro acc _; simp [ConfigBuilder.build_tools_go]
  | cons t rest ih =>
    intro acc hsafe
    have ht := hsafe t (by simp)
    cases hc : configTruthy t.config with
    | false =>
      rw [show ConfigBuilder.build_tools_go acc (t :: rest)
          = ConfigBuilder.build_tools_go acc rest by
        simp [ConfigBuilder.build_tools_go, hc]]
      rw [ih acc (fun c hcm => hsafe c (by simp [hcm]))]
      simp [componentToolDefs, hc]
    | true =>
      have hlk : jsonLookup (t.config.getD []) "tools" = none := by
        rcases ht with h | h
        · rw [hc] at h; cases h
        · exact h
      rw [show ConfigBuilder.build_tools_go acc (t :: rest)
          = ConfigBuilder.build_tools_go
              (acc ++ [ConfigBuilder.basicToolDef t (t.config.getD [])]) rest by
        simp [ConfigBuilder.build_tools_go, hc, hlk]]
      rw [ih _ (fun c hcm => hsafe c (by simp [hcm]))]
      simp [componentToolDefs, hc]

/-- C5 amended.  For every component set whose tool components each have
either an absent/empty configuration or a configuration without an
embedded `tools` list, compile succeeds; a tool component with absent or
empty configuration is *skipped* and contributes no tool definition,
while one with a nonempty configuration lacking a `tools` list
contributes exactly one basic (no-op-capable) definition built from its
name, description, and configured-or-default empty-object input
schema. -/
theorem C5_amended_compile_degrades (cs : List Component)
    (h : ∀ c ∈ cs, c.type = ComponentType.mcp_tool → toolsKeyAbsent c) :
    ∃ m, ConfigBuilder.build_config cs = Except.ok m
      ∧ m.tools = (cs.filter (fun c => decide (c.type = ComponentType.mcp_tool))).flatMap
          componentToolDefs := by
  have hsafe : ∀ c ∈ cs.filter (fun c => decide (c.type = ComponentType.mcp_tool)),
      toolsKeyAbsent c := by
    intro c hc
    have h2 := List.mem_filter.mp hc
    exact h c h2.1 (of_decide_eq_true h2.2)
  have hgo := build_tools_go_safe _ [] hsafe
  unfold ConfigBuilder.build_config ConfigBuilder.build_tools
  dsimp only
  rw [hgo]
  exact ⟨_, rfl, by simp⟩

/-- A tool component with a config lacking a `tools` list. -/
def toolBasic : Component :=
  { version_id := 1, type := .mcp_tool, name := "fetch"
    description := some "Fetch a URL", content := none
    config := some [("input_schema", Json.obj [("type", Json.str "object")])] }

theorem C5_witness :
    ∃ m, ConfigBuilder.build_config [toolNoConfig, toolBasic] = Except.ok m
      ∧ m.tools = ([toolNoConfig, toolBasic].filter
          (fun c => decide (c.type = ComponentType.mcp_tool))).flatMap
          componentToolDefs :=
  C5_amended_compile_degrades [toolNoConfig, toolBasic] (by
    intro c hc _
    rcases List.mem_cons.mp hc with rfl | hc2
    · exact Or.inl rfl
    · rcases List.mem_cons.mp hc2 with rfl | hc3
      · exact Or.inr rfl
      · exact absurd hc3 (List.not_mem_nil c))

/-! ### C6: stop on a non-RUNNING deployment -/

/-- C6.  For every deployment whose current status is not `RUNNING`,
`stop` fails with a `ValueError` naming the current status, makes no
adapter call, and leaves the database — every persisted field of every
deployment — unchanged. -/
theorem C6_stop_not_running_rejected (dk : Docker) (db : DB) (i : Nat)
    (d : Deployment) (hfind : db.findDeployment i = some d)
    (hst : d.status ≠ DeploymentStatus.running) :
    DeploymentService.stop dk db i =
      { db := db, calls := []
        result := .error (.valueError
          ("Deployment is not running (status: " ++ d.status.str ++ ")")) } :=
  DeploymentService.stop_not_running hfind hst

/-- A concrete already-stopped deployment. -/
def dStopped : Deployment :=
  { id := 3, agent_id := 1, version_id := 1, status := .stopped
    container_id := some 5, image_id := some 1, port := some 8080
    error_message := none, created_by := none, created_at := 0
    started_at := some 0, stopped_at := some 1 }

/-- A docker oracle whose every call succeeds. -/
def dkOk : Docker :=
  { build_image := fun _ _ _ => .ok 1
    create_container := fun _ _ => .ok (1, 8080)
    stop_container := fun _ => .ok ()
    remove_container := fun _ => .ok ()
    get_container_status := fun _ =>
      .ok { status := "running", running := true, health := "healthy"
            started_at := none, finished_at := none } }

/-- A database holding only the stopped deployment. -/
def dbStopped : DB :=
  { agents := [1], components := [], deployments := [dStopped]
    clock := 2, next_id := 10 }

theorem C6_witness :
    DeploymentService.stop dkOk dbStopped 3 =
      { db := dbStopped, calls := []
        result := .error (.valueError
          ("Deployment is not running (status: " ++ DeploymentStatus.stopped.str ++ ")")) } :=
  C6_stop_not_running_rejected dkOk dbStopped 3 dStopped rfl (by decide)

/-! ### C9: chat against a non-running or endpoint-less deployment -/

/-- C9.  For every chat request against a deployment that is not
`RUNNING`, or whose port is absent (or falsy), the gateway fails — with
the "not running" 400 in the former case — and attempts no network call
to the container. -/
theorem C9_chat_requires_running (co : Routers.ChatOracle) (db : DB) (i : Nat)
    (d : Deployment) (message : String) (conversation_id : Option String)
    (fresh : String) (hfind : db.findDeployment i = some d)
    (hbad : d.status ≠ DeploymentStatus.running ∨ d.port = none ∨ d.port = some 0) :
    (Routers.chat_with_deployment co db i message conversation_id fresh).1 = []
    ∧ (∃ e, (Routers.chat_with_deployment co db i message conversation_id fresh).2
        = .error e)
    ∧ (d.status ≠ DeploymentStatus.running →
        (Routers.chat_with_deployment co db i message conversation_id fresh).2
          = .error ⟨400, "Deployment is not running (status: " ++ d.status.str ++ ")"⟩) := by
  unfold Routers.chat_with_deployment
  simp only [hfind]
  by_cases hrun : d.status ≠ DeploymentStatus.running
  · rw [if_pos hrun]
    exact ⟨rfl, ⟨_, rfl⟩, fun _ => rfl⟩
  · rw [if_neg hrun]
    have hport : d.port = none ∨ d.port = some 0 := by
      rcases hbad with h | h
      · exact absurd h hrun
      · exact h
    rw [if_pos hport]
    exact ⟨rfl, ⟨_, rfl⟩, fun hcontra => absurd hcontra hrun⟩

/-- A network oracle that would answer any chat. -/
def coOk : Routers.ChatOracle :=
  { post_chat := fun _ _ c =>
      .ok { statusCode := 200, text := "", response := some "hi"
            conversation_id := some c } }

theorem C9_witness :
    (Routers.chat_with_deployment coOk dbStopped 3 "hello" none "c0").1 = []
    ∧ (∃ e, (Routers.chat_with_deployment coOk dbStopped 3 "hello" none "c0").2
        = .error e)
    ∧ (dStopped.status ≠ DeploymentStatus.running →
        (Routers.chat_with_deployment coOk dbStopped 3 "hello" none "c0").2
          = .error ⟨400, "Deployment is not running (status: "
              ++ dStopped.status.str ++ ")"⟩) :=
  C9_chat_requires_running coOk dbStopped 3 dStopped "hello" none "c0" rfl
    (Or.inl (by decide))

/-! ### C4: structure of the instructions document -/

theorem joinStr_two_prefix {sep x y : String} {xs : List String} :
    joinStr sep (x :: y :: xs) = x ++ (sep ++ joinStr sep (y :: xs)) := by
  rw [show joinStr sep (x :: y :: xs) = x ++ sep ++ joinStr sep (y :: xs) from rfl,
    String.append_assoc]

theorem skillSectionLines_ne_nil (s : Component) :
    ConfigBuilder.skillSectionLines s ≠ [] := by
  simp [ConfigBuilder.skillSectionLines]

theorem memorySectionLines_ne_nil (m : Component) :
    ConfigBuilder.memorySectionLines m ≠ [] := by
  simp [ConfigBuilder.memorySectionLines]

/-- The per-skill and per-memory line blocks occur in order, skills
first, inside the `sections` list. -/
theorem systemPromptSections_linesInOrder (skills memory : List Component) :
    linesInOrder (ConfigBuilder.systemPromptSections skills memory)
      (skills.map ConfigBuilder.skillSectionLines
        ++ memory.map ConfigBuilder.memorySectionLines) := by
  unfold ConfigBuilder.systemPromptSections
  rw [List.append_assoc]
  have hsk : linesInOrder
      ((if skills.isEmpty then []
        else ["# Your Skills", ""] ++ skills.flatMap ConfigBuilder.skillSectionLines))
      (skills.map ConfigBuilder.skillSectionLines) := by
    by_cases hs : skills.isEmpty
    · rw [if_pos hs, List.isEmpty_iff.mp hs]
      trivial
    · rw [if_neg hs]
      exact linesInOrder_prepend (linesInOrder_flatMap _ skills)
  have hmem : linesInOrder
      ((if memory.isEmpty then []
        else ["# Background Knowledge", ""]
          ++ memory.flatMap ConfigBuilder.memorySectionLines))
      (memory.map ConfigBuilder.memorySectionLines) := by
    by_cases hm : memory.isEmpty
    · rw [if_pos hm, List.isEmpty_iff.mp hm]
      trivial
    · rw [if_neg hm]
      exact linesInOrder_prepend (linesInOrder_flatMap _ memory)
  exact linesInOrder_prepend (linesInOrder_append hsk hmem)

/-- C4.  For every component set, the instructions document
(`_build_system_prompt`) starts with the fixed preamble sentence; the
titled line block of every skill (in input order) and then of every
memory item (in input order) occurs, in order, as a substring of the
document; a skill's block carries its body verbatim; a memory item's
block carries its body truncated to the first 4000 characters plus the
truncation marker when longer than 4000 characters, and verbatim when at
most 4000 characters. -/
theorem C4_instructions_structure (skills memory : List Component) :
    (∃ rest, ConfigBuilder.build_system_prompt skills memory
        = ConfigBuilder.preamble ++ rest)
    ∧ containsInOrder (ConfigBuilder.build_system_prompt skills memory)
        ((skills.map ConfigBuilder.skillSectionLines
            ++ memory.map ConfigBuilder.memorySectionLines).map (joinStr "\n"))
    ∧ (∀ s : Component, ∀ c : String, s.content = some c → c ≠ "" →
        ConfigBuilder.skillSectionLines s
          = ["## " ++ s.name]
            ++ (if strTruthy s.description then
                  ["*" ++ s.description.getD "" ++ "*", ""] else [])
            ++ [c, ""])
    ∧ (∀ m : Component, ∀ c : String, m.content = some c → 4000 < c.length →
        ConfigBuilder.memorySectionLines m
          = [ConfigBuilder.memorySectionTitle m,
             c.take 4000 ++ ConfigBuilder.truncationMarker, ""])
    ∧ (∀ m : Component, ∀ c : String, m.content = some c → c ≠ "" →
        c.length ≤ 4000 →
        ConfigBuilder.memorySectionLines m
          = [ConfigBuilder.memorySectionTitle m, c, ""]) := by
  refine ⟨⟨_, joinStr_two_prefix⟩, ?_, ?_, ?_, ?_⟩
  · have hne : ∀ p ∈ skills.map ConfigBuilder.skillSectionLines
        ++ memory.map ConfigBuilder.memorySectionLines, p ≠ [] := by
      intro p hp
      rcases List.mem_append.mp hp with h | h
      · obtain ⟨x, _, hx⟩ := List.mem_map.mp h
        exact hx ▸ skillSectionLines_ne_nil x
      · obtain ⟨x, _, hx⟩ := List.mem_map.mp h
        exact hx ▸ memorySectionLines_ne_nil x
    exact containsInOrder_joinStr _ _
      (systemPromptSections_linesInOrder skills memory) hne
  · intro s c hc hne
    have hb : strTruthy s.content = true := by
      rw [hc]
      simpa [strTruthy] using (String.isEmpty_iff c).not.mpr hne
    unfold ConfigBuilder.skillSectionLines
    rw [hb, hc]
    simp
  · intro m c hc h4
    have hcne : c ≠ "" := by
      intro hcontra
      rw [hcontra] at h4
      simp at h4
    have hb : strTruthy m.content = true := by
      rw [hc]
      simpa [strTruthy] using (String.isEmpty_iff c).not.mpr hcne
    unfold ConfigBuilder.memorySectionLines ConfigBuilder.truncateMemoryContent
    rw [hb, hc]
    simp [if_pos h4]
  · intro m c hc hcne hle
    have hb : strTruthy m.content = true := by
      rw [hc]
      simpa [strTruthy] using (String.isEmpty_iff c).not.mpr hcne
    unfold ConfigBuilder.memorySectionLines ConfigBuilder.truncateMemoryContent
    rw [hb, hc]
    simp [if_neg (Nat.not_lt.mpr hle)]

/-- A 5000-character memory item (named so it is not the special-cased
`CLAUDE.md`). -/
def memBig : Component :=
  { version_id := 1, type := .memory, name := "notes"
    description := none
    content := some (String.mk (List.replicate 5000 'x')), config := none }

theorem C4_witness :
    (∃ rest, ConfigBuilder.build_system_prompt [skillGreet] [memBig]
        = ConfigBuilder.preamble ++ rest)
    ∧ containsInOrder (ConfigBuilder.build_system_prompt [skillGreet] [memBig])
        (([skillGreet].map ConfigBuilder.skillSectionLines
            ++ [memBig].map ConfigBuilder.memorySectionLines).map (joinStr "\n"))
    ∧ ConfigBuilder.memorySectionLines memBig
        = [ConfigBuilder.memorySectionTitle memBig,
           (String.mk (List.replicate 5000 'x')).take 4000
             ++ ConfigBuilder.truncationMarker, ""] := by
  obtain ⟨h1, h2, _, h4, _⟩ := C4_instructions_structure [skillGreet] [memBig]
  refine ⟨h1, h2, h4 memBig (String.mk (List.replicate 5000 'x')) rfl ?_⟩
  have hlen : (String.mk (List.replicate 5000 'x')).length = 5000 := by
    rw [show (String.mk (List.replicate 5000 'x')).length
        = (List.replicate 5000 'x').length from rfl, List.length_replicate]
  rw [hlen]
  decide

/-! ### C1: deploy failures — FAILED status, persisted message, re-raise -/

/-- A docker oracle whose every call raises with the given message. -/
def failingDocker (msg : String) : Docker :=
  { build_image := fun _ _ _ => .error msg
    create_container := fun _ _ => .error msg
    stop_container := fun _ => .error (.apiError msg)
    remove_container := fun _ => .error (.apiError msg)
    get_container_status := fun _ => .error (.apiError msg) }

/-- A database with one agent and no deployments. -/
def dbOneAgent : DB :=
  { agents := [1], components := [], deployments := [], clock := 0, next_id := 100 }

/-- C1 counterexample.  The claim says the error message is persisted "in
truncated (bounded-length) form".  The code persists `str(e)` verbatim
into an unbounded `Text` column (`deployment_service.py` line 100,
`deployment.py` line 30): for every proposed bound there is a failing
deploy whose persisted message is longer, so no bounded-length
truncation exists. -/
theorem C1_counterexample :
    ¬ ∃ B : Nat, ∀ msg : String,
      ∀ d ∈ (DeploymentService.deploy (failingDocker msg) dbOneAgent 1 2 none).db.deployments,
        (d.error_message.getD "").length ≤ B := by
  rintro ⟨B, hB⟩
  have heq : ∀ msg : String,
      (DeploymentService.deploy (failingDocker msg) dbOneAgent 1 2 none).db.deployments
      = [{ id := 100, agent_id := 1, version_id := 2
           status := DeploymentStatus.failed
           container_id := none, image_id := none, port := none
           error_message := some msg, created_by := none, created_at := 0
           started_at := none, stopped_at := none }] := fun _ => rfl
  have h1 := hB (String.mk (List.replicate (B + 1) 'x'))
  rw [heq] at h1
  have h2 := h1 _ (List.mem_singleton.mpr rfl)
  simp only [Option.getD_some] at h2
  rw [show (String.mk (List.replicate (B + 1) 'x')).length
      = (List.replicate (B + 1) 'x').length from rfl, List.length_replicate] at h2
  exact absurd h2 (by simp)

/-- C1 amended.  For every `deploy` call on an existing agent that raises
during the build or start steps, the new deployment record is persisted
with status `FAILED` and with the exception's message stored *verbatim*
(`str(e)`, not truncated), and the same exception is re-raised to the
caller — never swallowed.  (Re-raising is the `herr` hypothesis itself:
the call's result is exactly the error the caller observes.) -/
theorem C1_amended_deploy_failure (dk : Docker) (db : DB) (a v : Nat)
    (u : Option Nat) (e : Err) (hwf : db.WF) (ha : a ∈ db.agents)
    (herr : (DeploymentService.deploy dk db a v u).result = .error e) :
    ∃ d, d ∈ (DeploymentService.deploy dk db a v u).db.deployments
      ∧ d.id = db.next_id
      ∧ d.status = DeploymentStatus.failed
      ∧ d.error_message = some e.str := by
  obtain ⟨dNew, hdeps, hnid, _, _, _, _, hfail, _⟩ :=
    DeploymentService.deploy_effect dk db a v u hwf ha
  refine ⟨dNew, ?_, hnid, (hfail e herr).1, (hfail e herr).2⟩
  rw [hdeps]
  exact List.mem_append_right _ (by simp)

theorem C1_witness :
    ∃ d, d ∈ (DeploymentService.deploy (failingDocker "boom") dbOneAgent 1 2 none).db.deployments
      ∧ d.id = dbOneAgent.next_id
      ∧ d.status = DeploymentStatus.failed
      ∧ d.error_message = some (Err.dockerError "boom").str :=
  C1_amended_deploy_failure (failingDocker "boom") dbOneAgent 1 2 none
    (.dockerError "boom") (by decide) (by decide) rfl

/-! ### C3: terminal states are terminal -/

/-- C3.  For every deployment whose status is `STOPPED` or `FAILED`, no
reachable sequence of orchestrator operations (`deploy`, `stop`,
`_stop_existing_deployments`, `get_status`, `stop_all_deployments`) ever
changes that deployment's status again. -/
theorem C3_terminal_states_stay (db db' : DB) (hreach : OrchReach db db')
    (hwf : db.WF) (d : Deployment) (hd : d ∈ db.deployments)
    (hterm : d.status = DeploymentStatus.stopped
      ∨ d.status = DeploymentStatus.failed) :
    ∀ d' ∈ db'.deployments, d'.id = d.id → d'.status = d.status :=
  (orch_reach_effect hreach hwf).2.2 d hd hterm

/-- A concrete running deployment alongside `dStopped`. -/
def dRunning : Deployment :=
  { id := 4, agent_id := 1, version_id := 1, status := .running
    container_id := some 5, image_id := some 1, port := some 8080
    error_message := none, created_by := none, created_at := 0
    started_at := some 0, stopped_at := none }

/-- A database with one stopped and one running deployment. -/
def dbMix : DB :=
  { agents := [1], components := [], deployments := [dStopped, dRunning]
    clock := 2, next_id := 10 }

theorem C3_witness : dStopped.status = dStopped.status :=
  C3_terminal_states_stay dbMix (Routers.stop_all_deployments dkOk dbMix).1
    (Relation.ReflTransGen.single (OrchStep.stopAll dkOk dbMix))
    (by decide) dStopped (by decide) (Or.inl rfl) dStopped (by decide) rfl

/-! ### C7: at most one RUNNING deployment per agent after deploy -/

/-- C7.  After a `deploy` call for an agent completes (sequentially, no
interleaving), at most one deployment of that agent is `RUNNING`, and
every deployment of the agent that was `RUNNING` before the call has
been moved to `STOPPED`. -/
theorem C7_single_running_after_deploy (dk : Docker) (db : DB) (a v : Nat)
    (u : Option Nat) (hwf : db.WF) (ha : a ∈ db.agents) :
    ((DeploymentService.deploy dk db a v u).db.deployments.filter
        (fun d => decide (d.agent_id = a
          ∧ d.status = DeploymentStatus.running))).length ≤ 1
    ∧ (∀ d ∈ db.deployments, d.agent_id = a →
        d.status = DeploymentStatus.running →
        ∀ d' ∈ (DeploymentService.deploy dk db a v u).db.deployments,
          d'.id = d.id → d'.status = DeploymentStatus.stopped) := by
  obtain ⟨dNew, hdeps, hnid, _, _, _, _, _, _⟩ :=
    DeploymentService.deploy_effect dk db a v u hwf ha
  have hse := DeploymentService.stopExisting_effect dk db a hwf
  constructor
  · rw [hdeps, List.filter_append]
    have h1 : (DeploymentService.stopExisting dk db a).1.deployments.filter
        (fun d => decide (d.agent_id = a
          ∧ d.status = DeploymentStatus.running)) = [] := by
      rw [List.filter_eq_nil_iff]
      intro x hx hpx
      have hp := of_decide_eq_true hpx
      exact (hse.2.2.2.2.2 x hx).1 hp.1 hp.2
    rw [h1, List.nil_append]
    exact List.length_filter_le _ _
  · intro d hd hag hrun d' hd' hid
    have hdR : d ∈ DeploymentService.runningOf db a :=
      List.mem_filter.mpr ⟨hd, decide_eq_true ⟨hag, hrun⟩⟩
    rw [hdeps] at hd'
    rcases List.mem_append.mp hd' with h1 | h1
    · exact ((hse.2.2.2.2.2 d' h1).2.1 (hid ▸ List.mem_map_of_mem _ hdR)).1
    · exfalso
      rw [List.mem_singleton] at h1
      have hlt : d.id < db.next_id := hwf.2 d hd
      rw [h1] at hid
      rw [hnid] at hid
      exact absurd (hid ▸ hlt) (Nat.lt_irrefl _)

theorem C7_witness :
    ((DeploymentService.deploy dkOk dbMix 1 2 none).db.deployments.filter
        (fun d => decide (d.agent_id = 1
          ∧ d.status = DeploymentStatus.running))).length ≤ 1 :=
  (C7_single_running_after_deploy dkOk dbMix 1 2 none (by decide) (by decide)).1

/-! ### C8: stopAll partial-failure reporting -/

/-- C8.  `stop_all_deployments` over the `RUNNING` deployments attempts
to stop every one of them — its adapter calls are the per-row teardown
attempts for the whole snapshot — even when some stop calls throw: every
per-item failure is swallowed and recorded; the reported counts
partition the snapshot by whether the row's teardown raised (so they sum
to N); the per-failure detail list has one entry per failure (with the
deployment id, agent id, and exception message); every row whose
teardown did not raise ends `STOPPED`; and with exactly one throwing
adapter call the other N−1 are stopped and exactly one failure is
reported. -/
theorem C8_stop_all_partial_failure (dk : Docker) (db : DB) (hwf : db.WF) :
    (Routers.stop_all_deployments dk db).2.2.stopped_count
      = ((Routers.runningAll db).filter
          (fun d => !DeploymentService.stopCallFails dk d)).length
    ∧ (Routers.stop_all_deployments dk db).2.2.failed_count
      = ((Routers.runningAll db).filter
          (fun d => DeploymentService.stopCallFails dk d)).length
    ∧ (Routers.stop_all_deployments dk db).2.2.stopped_count
        + (Routers.stop_all_deployments dk db).2.2.failed_count
      = (Routers.runningAll db).length
    ∧ (Routers.stop_all_deployments dk db).2.2.errors
      = (if (((Routers.runningAll db).filter
              (fun d => DeploymentService.stopCallFails dk d)).map
              (fun d => (d.id, d.agent_id, DeploymentService.stopFailMsg dk d))).isEmpty
         then none
         else some (((Routers.runningAll db).filter
              (fun d => DeploymentService.stopCallFails dk d)).map
              (fun d => (d.id, d.agent_id, DeploymentService.stopFailMsg dk d))))
    ∧ (Routers.stop_all_deployments dk db).2.1
      = (Routers.runningAll db).flatMap (DeploymentService.stopAttemptCalls dk)
    ∧ (∀ d ∈ Routers.runningAll db, DeploymentService.stopCallFails dk d = false →
        ∀ d' ∈ (Routers.stop_all_deployments dk db).1.deployments,
          d'.id = d.id → d'.status = DeploymentStatus.stopped)
    ∧ (((Routers.runningAll db).filter
          (fun d => DeploymentService.stopCallFails dk d)).length = 1 →
        (Routers.stop_all_deployments dk db).2.2.failed_count = 1
        ∧ (Routers.stop_all_deployments dk db).2.2.stopped_count + 1
          = (Routers.runningAll db).length) := by
  have h := Routers.stop_all_effect dk db hwf
  have hpart := List.length_eq_length_filter_add
    (l := Routers.runningAll db) (fun d => DeploymentService.stopCallFails dk d)
  refine ⟨h.2.2.2.1, h.2.2.2.2.1, ?_, h.2.2.2.2.2.1, h.2.2.1, ?_, ?_⟩
  · rw [h.2.2.2.1, h.2.2.2.2.1]
    omega
  · intro d hd hfalse d' hd' hid
    have hdF : d ∈ (Routers.runningAll db).filter
        (fun x => !DeploymentService.stopCallFails dk x) :=
      List.mem_filter.mpr ⟨hd, by rw [hfalse]; rfl⟩
    exact (h.2.2.2.2.2.2 d' hd').1 (hid ▸ List.mem_map_of_mem _ hdF)
  · intro h1
    refine ⟨by rw [h.2.2.2.2.1, h1], ?_⟩
    rw [h.2.2.2.1]
    omega

/-- A docker oracle that fails to stop exactly container 7. -/
def dkOneFail : Docker :=
  { build_image := fun _ _ _ => .ok 1
    create_container := fun _ _ => .ok (1, 8080)
    stop_container := fun c => if c = 7 then .error (.apiError "boom") else .ok ()
    remove_container := fun _ => .ok ()
    get_container_status := fun _ =>
      .ok { status := "running", running := true, health := "healthy"
            started_at := none, finished_at := none } }

/-- A second running deployment, whose container the oracle fails on. -/
def dRunning7 : Deployment :=
  { id := 7, agent_id := 2, version_id := 1, status := .running
    container_id := some 7, image_id := some 1, port := some 8081
    error_message := none, created_by := none, created_at := 0
    started_at := some 0, stopped_at := none }

/-- Two running deployments, one of which will fail to stop. -/
def dbTwoRunning : DB :=
  { agents := [1, 2], components := [], deployments := [dRunning, dRunning7]
    clock := 2, next_id := 20 }

theorem C8_witness :
    (Routers.stop_all_deployments dkOneFail dbTwoRunning).2.2.stopped_count = 1
    ∧ (Routers.stop_all_deployments dkOneFail dbTwoRunning).2.2.failed_count = 1 := by
  have h := C8_stop_all_partial_failure dkOneFail dbTwoRunning (by decide)
  exact ⟨h.1.trans (by decide), h.2.1.trans (by decide)⟩

/-! ### C10: stop-existing swallows failures and force-marks STOPPED -/

/-- C10.  During `deploy`'s stop-existing step, when stopping a prior
`RUNNING` deployment of the agent raises (here: its `stop_container`
call throws a non-`NotFound` docker error), the exception is swallowed —
`_stop_existing_deployments` returns normally, its embedding has no
error channel at all — the prior deployment is force-marked `STOPPED`
with a stop timestamp even though the container was neither stopped nor
removed (its `remove_container` is never called), and the deploy
proceeds to create the new deployment record. -/
theorem C10_stop_existing_swallows (dk : Docker) (db : DB) (a v : Nat)
    (u : Option Nat) (d : Deployment) (cid : Nat) (m : String) (hwf : db.WF)
    (hd : d ∈ db.deployments) (hag : d.agent_id = a)
    (hrun : d.status = DeploymentStatus.running)
    (hcid : d.container_id = some cid)
    (hstop : dk.stop_container cid = .error (.apiError m))
    (howner : ∀ d' ∈ db.deployments, d'.container_id = some cid → d' = d)
    (ha : a ∈ db.agents) :
    (∀ d' ∈ (DeploymentService.stopExisting dk db a).1.deployments,
        d'.id = d.id →
        d'.status = DeploymentStatus.stopped ∧ d'.stopped_at.isSome)
    ∧ Call.stopContainer cid ∈ (DeploymentService.stopExisting dk db a).2
    ∧ Call.removeContainer cid ∉ (DeploymentService.stopExisting dk db a).2
    ∧ db.next_id ∈ (DeploymentService.deploy dk db a v u).db.depIds := by
  have hse := DeploymentService.stopExisting_effect dk db a hwf
  have hdR : d ∈ DeploymentService.runningOf db a :=
    List.mem_filter.mpr ⟨hd, decide_eq_true ⟨hag, hrun⟩⟩
  refine ⟨?_, ?_, ?_, ?_⟩
  · intro d' hd' hid
    exact (hse.2.2.2.2.2 d' hd').2.1 (hid ▸ List.mem_map_of_mem _ hdR)
  · rw [hse.2.2.2.2.1]
    exact List.mem_flatMap.mpr ⟨d, hdR,
      by simp [DeploymentService.stopAttemptCalls, hcid, hstop]⟩
  · rw [hse.2.2.2.2.1]
    intro hmem
    obtain ⟨x, hxR, hxc⟩ := List.mem_flatMap.mp hmem
    cases hc2 : x.container_id with
    | none => simp [DeploymentService.stopAttemptCalls, hc2] at hxc
    | some cid2 =>
      cases hsc : dk.stop_container cid2 with
      | error e =>
        simp [DeploymentService.stopAttemptCalls, hc2, hsc] at hxc
      | ok unitv =>
        simp only [DeploymentService.stopAttemptCalls, hc2, hsc,
          List.mem_cons, List.mem_singleton] at hxc
        rcases hxc with hxc | hxc
        · cases hxc
        · rcases hxc with hxc | hxc
          · have hcc : cid = cid2 := by
              injection hxc
            have hxdb : x ∈ db.deployments := (List.mem_filter.mp hxR).1
            have hxd : x = d := howner x hxdb (by rw [hc2, hcc])
            rw [hxd, hcid] at hc2
            have hcc2 : cid2 = cid := by injection hc2 with h2; exact h2.symm
            rw [hcc2, hstop] at hsc
            cases hsc
          · cases hxc
  · obtain ⟨dNew, _, _, _, _, _, hids, _, _⟩ :=
      DeploymentService.deploy_effect dk db a v u hwf ha
    rw [hids]
    exact List.mem_append_right _ (by simp)

theorem C10_witness :
    Call.stopContainer 7 ∈ (DeploymentService.stopExisting dkOneFail dbTwoRunning 2).2
    ∧ Call.removeContainer 7 ∉ (DeploymentService.stopExisting dkOneFail dbTwoRunning 2).2
    ∧ dbTwoRunning.next_id
        ∈ (DeploymentService.deploy dkOneFail dbTwoRunning 2 1 none).db.depIds :=
  (C10_stop_existing_swallows dkOneFail dbTwoRunning 2 1 none dRunning7 7 "boom"
    (by decide) (by decide) rfl rfl rfl rfl (by decide) (by decide)).2

end AgentHR




